import Mathlib

/-!
Verification of the mem-kernel-rs memory store against its specification.

The development shallowly embeds the relevant Rust source files:

* crates/mem-vec/src/memory_vec.rs    (InMemoryVecStore)
* crates/mem-vec/src/keyword_store.rs (InMemoryKeywordStore, BM25)
* crates/mem-graph/src/memory.rs      (InMemoryGraphStore)
* crates/mem-cube/src/naive.rs        (NaiveMemCube)
* crates/mem-scheduler/src/memory.rs  (InMemoryScheduler)
* crates/mem-types/src/dto.rs         (request DTOs)

Rust hash maps are modelled as association lists whose insert replaces the
existing binding; iteration-order-sensitive spots are noted at the point of
use.  f64 arithmetic is modelled by the rationals where only comparisons and
list selection matter, and by the reals where the BM25 logarithm is needed.
-/

namespace MemKernel

/-- Association-list lookup: the first binding of the key, mirroring a Rust
HashMap get (a HashMap holds at most one binding per key). -/
def aget {κ α : Type} [DecidableEq κ] (m : List (κ × α)) (k : κ) : Option α :=
  match m with
  | [] => none
  | kv :: rest => if kv.1 = k then some kv.2 else aget rest k

/-- Association-list lookup with default, mirroring unwrap_or. -/
def agetD {κ α : Type} [DecidableEq κ] (m : List (κ × α)) (k : κ) (d : α) : α :=
  (aget m k).getD d

/-- Association-list insert that replaces the existing binding in place,
mirroring HashMap insert. -/
def ainsert {κ α : Type} [DecidableEq κ] (m : List (κ × α)) (k : κ) (v : α) :
    List (κ × α) :=
  match m with
  | [] => [(k, v)]
  | kv :: rest => if kv.1 = k then (k, v) :: rest else kv :: ainsert rest k v

/-- Association-list removal of a key, mirroring HashMap remove. -/
def aremove {κ α : Type} [DecidableEq κ] (m : List (κ × α)) (k : κ) :
    List (κ × α) :=
  m.filter fun kv => decide (kv.1 ≠ k)

/-- Mirror of the entry().or_insert(d) then mutate-by-f idiom on a HashMap. -/
def aupdate {κ α : Type} [DecidableEq κ] (m : List (κ × α)) (k : κ) (f : α → α)
    (d : α) : List (κ × α) :=
  match m with
  | [] => [(k, f d)]
  | kv :: rest => if kv.1 = k then (k, f kv.2) :: rest else kv :: aupdate rest k f d

theorem aget_ainsert_self {κ α : Type} [DecidableEq κ] (m : List (κ × α))
    (k : κ) (v : α) : aget (ainsert m k v) k = some v := by
  induction m with
  | nil => simp [aget, ainsert]
  | cons kv rest ih =>
      by_cases h : kv.1 = k
      · simp [ainsert, h, aget]
      · simp [ainsert, h, aget, ih]

theorem aget_ainsert_ne {κ α : Type} [DecidableEq κ] (m : List (κ × α))
    (k k2 : κ) (v : α) (h : k ≠ k2) : aget (ainsert m k v) k2 = aget m k2 := by
  induction m with
  | nil => simp [aget, ainsert, h]
  | cons kv rest ih =>
      by_cases hk : kv.1 = k
      · simp [ainsert, hk, aget, h]
      · simp [ainsert, hk, aget, ih]

theorem aget_aremove_self {κ α : Type} [DecidableEq κ] (m : List (κ × α))
    (k : κ) : aget (aremove m k) k = none := by
  induction m with
  | nil => simp [aget, aremove]
  | cons kv rest ih =>
      by_cases h : kv.1 = k
      · simpa [aremove, h] using ih
      · simpa [aremove, List.filter, h, aget] using ih

theorem aget_mem {κ α : Type} [DecidableEq κ] (m : List (κ × α)) (k : κ) (v : α)
    (h : aget m k = some v) : (k, v) ∈ m := by
  induction m with
  | nil => simp [aget] at h
  | cons kv rest ih =>
      by_cases hk : kv.1 = k
      · simp only [aget, if_pos hk, Option.some.injEq] at h
        have hkv : kv = (k, v) := by
          cases kv
          simp only at hk h
          rw [hk, h]
        rw [← hkv]
        exact List.mem_cons_self _ _
      · simp only [aget, if_neg hk] at h
        exact List.mem_cons_of_mem _ (ih h)

/-- JSON values, restricted to the value shapes the modelled code actually
stores into metadata and payload maps (strings, numbers, booleans, arrays of
strings, arrays of chat messages).  Numbers are modelled by the rationals. -/
inductive JVal : Type where
  | str (s : String)
  | num (q : ℚ)
  | bool (b : Bool)
  | strList (xs : List String)
  | msgList (xs : List (String × String))
  deriving DecidableEq, Repr

/-- Mirror of serde_json Value::as_str. -/
def jAsStr : JVal → Option String
  | .str s => some s
  | _ => none

/-- String-keyed metadata/payload map (serde_json object). -/
abbrev Smap := List (String × JVal)

/-- Lookup in a metadata map, mirroring metadata.get(k). -/
def sget (m : Smap) (k : String) : Option JVal := aget m k

/-- Insert into a metadata map, mirroring metadata.insert(k, v). -/
def sinsert (m : Smap) (k : String) (v : JVal) : Smap := ainsert m k v

theorem sget_sinsert_self (m : Smap) (k : String) (v : JVal) :
    sget (sinsert m k v) k = some v := aget_ainsert_self m k v

theorem sget_sinsert_ne (m : Smap) (k k2 : String) (v : JVal) (h : k ≠ k2) :
    sget (sinsert m k v) k2 = sget m k2 := aget_ainsert_ne m k k2 v h

/-! ## InMemoryVecStore (crates/mem-vec/src/memory_vec.rs) -/

/-- Item stored in the vector store (id, vector, payload).  Vectors are f32 in
the source; components are modelled by the rationals. -/
structure VecStoreItem : Type where
  id : String
  vector : List ℚ
  payload : Smap
  deriving DecidableEq, Repr

/-- Vector-search hit (id + score). -/
structure VecSearchHit : Type where
  id : String
  score : ℚ
  deriving DecidableEq, Repr

/-- Payload filter predicate from InMemoryVecStore::search: every filter key
must be present in the item payload with an equal value; a missing key is a
non-match. -/
def matchesFilter (filter : Option Smap) (i : VecStoreItem) : Bool :=
  match filter with
  | none => true
  | some f => f.all fun kv =>
      match sget i.payload kv.1 with
      | some pv => decide (pv = kv.2)
      | none => false

/-- Search of InMemoryVecStore::search over the stored items: filter by
payload, score by cosine similarity, sort descending by score (the source
uses a stable sort_by, modelled by a stable insertion sort), take top_k.  The
f64 cosine_similarity is abstracted into the argument sim, since every
property proved below is independent of the floating-point score values. -/
def vecSearch (sim : List ℚ → List ℚ → ℚ) (queryVector : List ℚ) (topK : Nat)
    (filter : Option Smap) (items : List VecStoreItem) : List VecSearchHit :=
  let candidates := (items.filter (matchesFilter filter)).map
    fun i => (i, sim queryVector i.vector)
  let sorted := candidates.insertionSort fun a b => b.2 ≤ a.2
  (sorted.take topK).map fun p => { id := p.1.id, score := p.2 }

/-- Vector store state: collection content as id-keyed bindings (the store
keys items by id; InMemoryVecStore::add inserts item under item.id). -/
abbrev VecState := List (String × VecStoreItem)

/-- Mirror of InMemoryVecStore::add (insert or replace by id). -/
def vecAdd (s : VecState) (items : List VecStoreItem) : VecState :=
  items.foldl (fun acc i => ainsert acc i.id i) s

/-- Mirror of InMemoryVecStore::delete (remove by ids). -/
def vecDelete (s : VecState) (ids : List String) : VecState :=
  ids.foldl (fun acc i => aremove acc i) s

/-- Mirror of InMemoryVecStore::get_by_ids. -/
def vecGetByIds (s : VecState) (ids : List String) : List VecStoreItem :=
  ids.filterMap fun i => aget s i

/-- The stored items a search iterates over (HashMap::values). -/
def vecValues (s : VecState) : List VecStoreItem := s.map Prod.snd

theorem matchesFilter_forall (f : Smap) (i : VecStoreItem)
    (h : matchesFilter (some f) i = true) :
    ∀ k v, (k, v) ∈ f → sget i.payload k = some v := by
  intro k v hkv
  simp only [matchesFilter, List.all_eq_true] at h
  have := h (k, v) hkv
  cases hg : sget i.payload k with
  | none => rw [hg] at this; simp at this
  | some pv =>
      rw [hg] at this
      simp at this
      rw [this]

theorem vecSearch_mem_items (sim : List ℚ → List ℚ → ℚ) (q : List ℚ)
    (topK : Nat) (filter : Option Smap) (items : List VecStoreItem)
    (hit : VecSearchHit) (hhit : hit ∈ vecSearch sim q topK filter items) :
    ∃ i ∈ items, i.id = hit.id ∧ matchesFilter filter i = true := by
  simp only [vecSearch, List.mem_map] at hhit
  obtain ⟨p, hp, hph⟩ := hhit
  have hp2 := List.mem_of_mem_take hp
  rw [List.mem_insertionSort] at hp2
  simp only [List.mem_map, List.mem_filter] at hp2
  obtain ⟨i, ⟨hi, hmatch⟩, hip⟩ := hp2
  refine ⟨i, hi, ?_, hmatch⟩
  rw [← hph, ← hip]

/-- Claim C4.  A vector search with a payload filter returns a hit only when a
stored item with that id satisfies the full equality conjunction: every filter
key is present in the item payload with an equal value.  In particular (with
id-distinct items) an item whose payload lacks a filter key, or carries a
different value for it, is never returned. -/
theorem vecSearch_filter_required_present (sim : List ℚ → List ℚ → ℚ)
    (q : List ℚ) (topK : Nat) (f : Smap) (items : List VecStoreItem)
    (hit : VecSearchHit)
    (hnd : (items.map VecStoreItem.id).Nodup)
    (hhit : hit ∈ vecSearch sim q topK (some f) items) :
    (∃ i ∈ items, i.id = hit.id) ∧
      ∀ i ∈ items, i.id = hit.id → ∀ k v, (k, v) ∈ f →
        sget i.payload k = some v := by
  obtain ⟨i0, hi0, hid0, hm0⟩ := vecSearch_mem_items sim q topK (some f) items hit hhit
  refine ⟨⟨i0, hi0, hid0⟩, ?_⟩
  intro i hi hid k v hkv
  have : i = i0 := by
    refine List.inj_on_of_nodup_map (f := VecStoreItem.id) hnd hi hi0 ?_
    rw [hid, hid0]
  subst this
  exact matchesFilter_forall f i hm0 k v hkv

/-- Witness for C4: a concrete store of two items where the second lacks the
filter key; the search hit is justified by the first item, whose payload holds
the filter key with the filter value. -/
theorem vecSearch_filter_required_present_witness :
    ((([⟨"a", [1], [("mem_cube_id", JVal.str "alice")]⟩,
        ⟨"b", [1], []⟩] : List VecStoreItem).map VecStoreItem.id).Nodup ∧
      (⟨"a", 1⟩ : VecSearchHit) ∈ vecSearch (fun _ _ => 1) [1] 10
        (some [("mem_cube_id", JVal.str "alice")])
        [⟨"a", [1], [("mem_cube_id", JVal.str "alice")]⟩, ⟨"b", [1], []⟩]) ∧
      ((∃ i ∈ ([⟨"a", [1], [("mem_cube_id", JVal.str "alice")]⟩,
          ⟨"b", [1], []⟩] : List VecStoreItem), i.id = "a") ∧
        ∀ i ∈ ([⟨"a", [1], [("mem_cube_id", JVal.str "alice")]⟩,
          ⟨"b", [1], []⟩] : List VecStoreItem), i.id = "a" →
          ∀ k v, (k, v) ∈ [("mem_cube_id", JVal.str "alice")] →
            sget i.payload k = some v) := by
  refine ⟨⟨by decide, by decide⟩, ?_⟩
  have h := vecSearch_filter_required_present (fun _ _ => 1) [1] 10
    [("mem_cube_id", JVal.str "alice")]
    [⟨"a", [1], [("mem_cube_id", JVal.str "alice")]⟩, ⟨"b", [1], []⟩]
    ⟨"a", 1⟩ (by decide) (by decide)
  exact h

/-! ## InMemoryGraphStore (crates/mem-graph/src/memory.rs) -/

/-- Traversal direction for graph queries (GraphDirection in dto.rs). -/
inductive GraphDirection : Type where
  | outbound
  | inbound
  | both
  deriving DecidableEq, Repr

/-- A memory node (MemoryNode in dto.rs).  The embedding is f32 in the source,
modelled by rationals. -/
structure MemoryNode : Type where
  id : String
  memory : String
  metadata : Smap
  embedding : Option (List ℚ)
  deriving DecidableEq, Repr

/-- A directed edge between memory nodes (MemoryEdge in dto.rs).  The source
fields from and to are renamed fromId and toId because from is a Lean
keyword. -/
structure MemoryEdge : Type where
  id : String
  fromId : String
  toId : String
  relation : String
  metadata : Smap
  deriving DecidableEq, Repr

/-- Neighbor item (edge + far node) returned by get_neighbors. -/
structure GraphNeighbor : Type where
  edge : MemoryEdge
  node : MemoryNode
  deriving DecidableEq, Repr

/-- State of InMemoryGraphStore: node map, per-user per-scope id index, edge
map, and the two adjacency indices (from-node to edge ids, to-node to edge
ids). -/
structure GraphState : Type where
  nodes : List (String × MemoryNode)
  scopeIndex : List (String × List (String × List String))
  edges : List (String × MemoryEdge)
  outIndex : List (String × List String)
  inIndex : List (String × List String)
  deriving DecidableEq, Repr

/-- Mirror of InMemoryGraphStore::scope_for_node. -/
def scopeForNode (metadata : Smap) : String :=
  ((sget metadata "scope").bind jAsStr).getD "LongTermMemory"

/-- Mirror of InMemoryGraphStore::owner_from_metadata (and of the private
NaiveMemCube::node_owner, which has the same body). -/
def ownerFromMetadata (metadata : Smap) : String :=
  ((sget metadata "user_name").bind jAsStr).getD ""

/-- Mirror of InMemoryGraphStore::is_tombstone. -/
def isTombstone (metadata : Smap) : Bool :=
  ((sget metadata "state").bind jAsStr).getD "active" = "tombstone"

/-- Mirror of InMemoryGraphStore::strip_embedding. -/
def stripEmbedding (node : MemoryNode) (includeEmbedding : Bool) : MemoryNode :=
  if includeEmbedding then node else { node with embedding := none }

/-- Mirror of InMemoryGraphStore::add_edge_to_index (push if not present). -/
def addEdgeToIndex (index : List (String × List String)) (nodeId edgeId : String) :
    List (String × List String) :=
  aupdate index nodeId
    (fun l => if edgeId ∈ l then l else l ++ [edgeId]) []

/-- Mirror of InMemoryGraphStore::remove_edge_from_index (retain then drop the
entry when its list became empty). -/
def removeEdgeFromIndex (index : List (String × List String))
    (nodeId edgeId : String) : List (String × List String) :=
  match aget index nodeId with
  | none => index
  | some l =>
      let l2 := l.filter fun x => decide (x ≠ edgeId)
      if l2.isEmpty then aremove index nodeId else ainsert index nodeId l2

/-- Mirror of InMemoryGraphStore::add_nodes_batch: stamp user_name into the
metadata, insert the node by id, and record the id under (user, scope) in the
scope index when not already present. -/
def addNodesBatch (s : GraphState) (nodes : List MemoryNode)
    (userName : Option String) : GraphState :=
  let un := userName.getD ""
  nodes.foldl
    (fun acc node =>
      let scope := scopeForNode node.metadata
      let n := { node with metadata := sinsert node.metadata "user_name" (.str un) }
      let userMap := agetD acc.scopeIndex un []
      let scopeList := agetD userMap scope []
      let scopeList2 := if node.id ∈ scopeList then scopeList else scopeList ++ [node.id]
      { acc with
        nodes := ainsert acc.nodes n.id n
        scopeIndex := ainsert acc.scopeIndex un (ainsert userMap scope scopeList2) })
    s

/-- Validation pass of InMemoryGraphStore::add_edges_batch: for each edge the
endpoints must exist and, when an owner is given, both must belong to it. -/
def validateEdges (s : GraphState) (edges : List MemoryEdge)
    (userName : Option String) : Except String Unit :=
  match edges with
  | [] => .ok ()
  | e :: rest =>
      match aget s.nodes e.fromId with
      | none => .error ("from node not found: " ++ e.fromId)
      | some fromNode =>
          match aget s.nodes e.toId with
          | none => .error ("to node not found: " ++ e.toId)
          | some toNode =>
              match userName with
              | some un =>
                  if ownerFromMetadata fromNode.metadata ≠ un ∨
                      ownerFromMetadata toNode.metadata ≠ un then
                    .error ("node not found or access denied for edge: " ++ e.id)
                  else validateEdges s rest userName
              | none => validateEdges s rest userName

/-- Insert one edge into the edge map and both adjacency indices, replacing
(and unindexing) any previous edge with the same id. -/
def insertEdge (s : GraphState) (e : MemoryEdge) : GraphState :=
  let removedIdx :=
    match aget s.edges e.id with
    | some old =>
        (removeEdgeFromIndex s.outIndex old.fromId old.id,
         removeEdgeFromIndex s.inIndex old.toId old.id)
    | none => (s.outIndex, s.inIndex)
  { s with
    edges := ainsert s.edges e.id e
    outIndex := addEdgeToIndex removedIdx.1 e.fromId e.id
    inIndex := addEdgeToIndex removedIdx.2 e.toId e.id }

/-- Mirror of InMemoryGraphStore::add_edges_batch: validate every edge first
(no partial success), then insert each with user_name stamped. -/
def addEdgesBatch (s : GraphState) (edges : List MemoryEdge)
    (userName : Option String) : GraphState × Except String Unit :=
  if edges.isEmpty then (s, .ok ())
  else
    match validateEdges s edges userName with
    | .error e => (s, .error e)
    | .ok _ =>
        let un := userName.getD ""
        (edges.foldl
          (fun acc e =>
            insertEdge acc { e with metadata := sinsert e.metadata "user_name" (.str un) })
          s, .ok ())

/-- Mirror of InMemoryGraphStore::get_node. -/
def getNode (s : GraphState) (id : String) (includeEmbedding : Bool) :
    Option MemoryNode :=
  (aget s.nodes id).map fun n => stripEmbedding n includeEmbedding

/-- Mirror of InMemoryGraphStore::get_nodes (missing ids are skipped). -/
def getNodes (s : GraphState) (ids : List String) (includeEmbedding : Bool) :
    List MemoryNode :=
  ids.filterMap fun id => (aget s.nodes id).map fun n => stripEmbedding n includeEmbedding

/-- Owner check used by node-scoped operations: when a user name is given the
node metadata owner must equal it. -/
def ownerDenied (userName : Option String) (node : MemoryNode) : Bool :=
  match userName with
  | some un => ownerFromMetadata node.metadata ≠ un
  | none => false

/-- Edge-owner filter used inside get_neighbors and the path searches. -/
def edgeOwnerOk (userName : Option String) (e : MemoryEdge) : Bool :=
  match userName with
  | some un => ownerFromMetadata e.metadata = un
  | none => true

/-- Relation filter used inside get_neighbors and the path searches. -/
def relationOk (relation : Option String) (e : MemoryEdge) : Bool :=
  match relation with
  | some r => e.relation = r
  | none => true

/-- Far endpoint of an edge relative to a node under a direction; none when
the edge is not incident the right way (the continue cases of the source
match). -/
def neighborTarget (direction : GraphDirection) (id : String) (e : MemoryEdge) :
    Option String :=
  match direction with
  | .outbound => if e.fromId = id then some e.toId else none
  | .inbound => if e.toId = id then some e.fromId else none
  | .both =>
      if e.fromId = id then some e.toId
      else if e.toId = id then some e.fromId else none

/-- Adjacency edge ids consulted for a node under a direction. -/
def directionEdgeIds (s : GraphState) (direction : GraphDirection) (id : String) :
    List String :=
  match direction with
  | .outbound => agetD s.outIndex id []
  | .inbound => agetD s.inIndex id []
  | .both => agetD s.outIndex id [] ++ agetD s.inIndex id []

/-- Collection loop of get_neighbors over the sorted edges: stop at the limit,
skip edges not incident the right way, skip missing or foreign far nodes,
otherwise emit (edge, far node without embedding unless requested). -/
def neighborsLoop (s : GraphState) (id : String) (direction : GraphDirection)
    (includeEmbedding : Bool) (userName : Option String) :
    List MemoryEdge → Nat → List GraphNeighbor
  | [], _ => []
  | _ :: _, 0 => []
  | e :: rest, n + 1 =>
      match neighborTarget direction id e with
      | none => neighborsLoop s id direction includeEmbedding userName rest (n + 1)
      | some nid =>
          match aget s.nodes nid with
          | none => neighborsLoop s id direction includeEmbedding userName rest (n + 1)
          | some node =>
              if ownerDenied userName node then
                neighborsLoop s id direction includeEmbedding userName rest (n + 1)
              else
                ⟨e, stripEmbedding node includeEmbedding⟩ ::
                  neighborsLoop s id direction includeEmbedding userName rest n

/-- Mirror of InMemoryGraphStore::get_neighbors.  The source deduplicates the
collected edge ids through a HashSet keeping first occurrences; since the kept
edges are then sorted by id, the dedup below (which keeps last occurrences) is
observationally identical.  The stable sort_by on edge id is modelled by a
stable insertion sort. -/
def getNeighbors (s : GraphState) (id : String) (relation : Option String)
    (direction : GraphDirection) (limit : Nat) (includeEmbedding : Bool)
    (userName : Option String) : Except String (List GraphNeighbor) :=
  if limit = 0 then .ok []
  else
    match aget s.nodes id with
    | none => .error ("node not found: " ++ id)
    | some node =>
        if ownerDenied userName node then
          .error ("node not found or access denied: " ++ id)
        else
          let edgeIds := directionEdgeIds s direction id
          if edgeIds.isEmpty then .ok []
          else
            let edgesToVisit :=
              (edgeIds.dedup.filterMap fun eid => aget s.edges eid).filter
                fun e => edgeOwnerOk userName e && relationOk relation e
            let sorted := edgesToVisit.insertionSort fun a b => a.id ≤ b.id
            .ok (neighborsLoop s id direction includeEmbedding userName sorted limit)

theorem stripEmbedding_metadata (n : MemoryNode) (b : Bool) :
    (stripEmbedding n b).metadata = n.metadata := by
  cases b <;> rfl

theorem stripEmbedding_id (n : MemoryNode) (b : Bool) :
    (stripEmbedding n b).id = n.id := by
  cases b <;> rfl

theorem neighborsLoop_length_le (s : GraphState) (id : String)
    (direction : GraphDirection) (incl : Bool) (un : Option String) :
    ∀ (edges : List MemoryEdge) (n : Nat),
      (neighborsLoop s id direction incl un edges n).length ≤ n := by
  intro edges
  induction edges with
  | nil => intro n; simp [neighborsLoop]
  | cons e rest ih =>
      intro n
      match n with
      | 0 => simp [neighborsLoop]
      | Nat.succ m =>
          rw [neighborsLoop]
          split
          · exact ih (m + 1)
          · split
            · exact ih (m + 1)
            · split
              · exact ih (m + 1)
              · simpa using Nat.succ_le_succ (ih m)

theorem neighborsLoop_mem (s : GraphState) (id : String)
    (direction : GraphDirection) (incl : Bool) (un : Option String) :
    ∀ (edges : List MemoryEdge) (n : Nat) (gn : GraphNeighbor),
      gn ∈ neighborsLoop s id direction incl un edges n →
      gn.edge ∈ edges ∧
        ∃ nid node, neighborTarget direction id gn.edge = some nid ∧
          aget s.nodes nid = some node ∧
          gn.node = stripEmbedding node incl ∧
          ownerDenied un node = false := by
  intro edges
  induction edges with
  | nil => intro n gn h; simp [neighborsLoop] at h
  | cons e rest ih =>
      intro n gn h
      match n with
      | 0 => simp [neighborsLoop] at h
      | Nat.succ m =>
          rw [neighborsLoop] at h
          split at h
          · obtain ⟨h1, h2⟩ := ih (m + 1) gn h
            exact ⟨List.mem_cons_of_mem _ h1, h2⟩
          · next nid ht =>
              split at h
              · obtain ⟨h1, h2⟩ := ih (m + 1) gn h
                exact ⟨List.mem_cons_of_mem _ h1, h2⟩
              · next node hn =>
                  split at h
                  · obtain ⟨h1, h2⟩ := ih (m + 1) gn h
                    exact ⟨List.mem_cons_of_mem _ h1, h2⟩
                  · next hd =>
                      have hd2 : ownerDenied un node = false := by
                        revert hd; cases ownerDenied un node <;> simp
                      rcases List.mem_cons.mp h with hgn | hgn
                      · subst hgn
                        exact ⟨List.mem_cons_self _ _, nid, node, ht, hn, rfl, hd2⟩
                      · obtain ⟨h1, h2⟩ := ih m gn hgn
                        exact ⟨List.mem_cons_of_mem _ h1, h2⟩

theorem neighborsLoop_pairwise (s : GraphState) (id : String)
    (direction : GraphDirection) (incl : Bool) (un : Option String)
    (R : MemoryEdge → MemoryEdge → Prop) :
    ∀ (edges : List MemoryEdge) (n : Nat), List.Pairwise R edges →
      List.Pairwise (fun a b => R a.edge b.edge)
        (neighborsLoop s id direction incl un edges n) := by
  intro edges
  induction edges with
  | nil => intro n _; simp [neighborsLoop]
  | cons e rest ih =>
      intro n hpw
      obtain ⟨hhead, htail⟩ := List.pairwise_cons.mp hpw
      match n with
      | 0 => simp [neighborsLoop]
      | Nat.succ m =>
          rw [neighborsLoop]
          split
          · exact ih (m + 1) htail
          · split
            · exact ih (m + 1) htail
            · split
              · exact ih (m + 1) htail
              · refine List.pairwise_cons.mpr ⟨?_, ih m htail⟩
                intro gn hgn
                have hmem := (neighborsLoop_mem s id direction incl un rest m gn hgn).1
                exact hhead gn.edge hmem

theorem mem_filterMap_aget_id (s : GraphState)
    (hwf : ∀ kv ∈ s.edges, kv.2.id = kv.1) (l : List String) (e : MemoryEdge)
    (h : e ∈ l.filterMap fun eid => aget s.edges eid) : e.id ∈ l := by
  obtain ⟨eid, hmem, hget⟩ := List.mem_filterMap.mp h
  have hid : e.id = eid := hwf (eid, e) (aget_mem _ _ _ hget)
  rw [hid]
  exact hmem

theorem nodup_ids_filterMap_aget (s : GraphState)
    (hwf : ∀ kv ∈ s.edges, kv.2.id = kv.1) :
    ∀ l : List String, l.Nodup →
      ((l.filterMap fun eid => aget s.edges eid).map MemoryEdge.id).Nodup := by
  intro l
  induction l with
  | nil => intro _; simp
  | cons eid rest ih =>
      intro hnd
      obtain ⟨hnotin, hndrest⟩ := List.nodup_cons.mp hnd
      rw [List.filterMap_cons]
      cases hget : aget s.edges eid with
      | none => exact ih hndrest
      | some e =>
          have heid : e.id = eid := hwf (eid, e) (aget_mem _ _ _ hget)
          rw [List.map_cons]
          refine List.nodup_cons.mpr ⟨?_, ih hndrest⟩
          intro hcontra
          obtain ⟨e2, he2mem, he2id⟩ := List.mem_map.mp hcontra
          have : e2.id ∈ rest := mem_filterMap_aget_id s hwf rest e2 he2mem
          rw [he2id, heid] at this
          exact hnotin this

/-- Claim C7.  For a get_neighbors call on an existing node owned by the
caller (on a well-formed store state, where nodes and edges are keyed by their
own ids, as every store operation maintains), the call succeeds and the
returned list contains only neighbors reached via edges that match the
requested relation, that are incident in the requested direction, and whose
edge and far endpoint are owned by the caller; the list is sorted by
(edge.id, far_node.id) (strictly, since edge ids are deduplicated), has at
most limit entries, and limit = 0 gives the empty list.  Determinism over the
same graph state is definitional: the embedding is a pure function of the
state, mirroring the source, whose only iteration orders are the stored
adjacency vectors and the sorted edge list. -/
theorem getNeighbors_spec (s : GraphState) (id : String)
    (relation : Option String) (direction : GraphDirection) (limit : Nat)
    (includeEmbedding : Bool) (un : String) (node : MemoryNode)
    (hwfE : ∀ kv ∈ s.edges, kv.2.id = kv.1)
    (hwfN : ∀ kv ∈ s.nodes, kv.2.id = kv.1)
    (hnode : aget s.nodes id = some node)
    (howner : ownerFromMetadata node.metadata = un) :
    ∃ l, getNeighbors s id relation direction limit includeEmbedding (some un) = .ok l ∧
      l.length ≤ limit ∧
      (limit = 0 → l = []) ∧
      List.Pairwise (fun a b : GraphNeighbor =>
        a.edge.id < b.edge.id ∨ (a.edge.id = b.edge.id ∧ a.node.id < b.node.id)) l ∧
      (∀ gn ∈ l,
        ownerFromMetadata gn.edge.metadata = un ∧
        ownerFromMetadata gn.node.metadata = un ∧
        (∀ r, relation = some r → gn.edge.relation = r) ∧
        neighborTarget direction id gn.edge = some gn.node.id) ∧
      getNeighbors s id relation direction limit includeEmbedding (some un) =
        getNeighbors s id relation direction limit includeEmbedding (some un) := by
  by_cases hlim : limit = 0
  · have hcall : getNeighbors s id relation direction limit includeEmbedding
        (some un) = .ok [] := by
      rw [getNeighbors]
      simp [hlim]
    exact ⟨[], hcall, by simp, fun _ => rfl, by simp, by simp, rfl⟩
  · have hdenied : ownerDenied (some un) node = false := by
      simp [ownerDenied, howner]
    by_cases hempty : (directionEdgeIds s direction id).isEmpty
    · have hcall : getNeighbors s id relation direction limit includeEmbedding
          (some un) = .ok [] := by
        rw [getNeighbors]
        simp only [hlim, if_false, hnode, hdenied, Bool.false_eq_true,
          hempty, if_true]
      exact ⟨[], hcall, by simp, fun h0 => absurd h0 hlim, by simp, by simp, rfl⟩
    · set base := ((directionEdgeIds s direction id).dedup.filterMap
        fun eid => aget s.edges eid) with hbase
      set toVisit := base.filter
        (fun e => edgeOwnerOk (some un) e && relationOk relation e) with htv
      set sorted := toVisit.insertionSort (fun a b => a.id ≤ b.id) with hsorted
      set result := neighborsLoop s id direction includeEmbedding (some un) sorted limit
        with hres
      have hcall : getNeighbors s id relation direction limit includeEmbedding
          (some un) = .ok result := by
        rw [getNeighbors]
        simp only [hlim, if_false, hnode, hdenied, Bool.false_eq_true,
          hempty, if_false, hbase, htv, hsorted, hres]
      refine ⟨result, hcall, ?_, ?_, ?_, ?_, rfl⟩
      · exact neighborsLoop_length_le _ _ _ _ _ _ _
      · intro h0; exact absurd h0 hlim
      · -- sortedness: edge ids in the result are strictly increasing
        have hndbase : (base.map MemoryEdge.id).Nodup := by
          rw [hbase]
          exact nodup_ids_filterMap_aget s hwfE _ (List.nodup_dedup _)
        have hndtv : (toVisit.map MemoryEdge.id).Nodup := by
          have hsub : toVisit.Sublist base := by
            rw [htv]; exact List.filter_sublist _
          exact List.Nodup.sublist (hsub.map MemoryEdge.id) hndbase
        have hndsorted : (sorted.map MemoryEdge.id).Nodup := by
          have hperm : sorted.Perm toVisit := List.perm_insertionSort _ _
          exact ((hperm.map MemoryEdge.id).nodup_iff).mpr hndtv
        haveI : IsTotal MemoryEdge (fun a b => a.id ≤ b.id) :=
          ⟨fun a b => le_total a.id b.id⟩
        haveI : IsTrans MemoryEdge (fun a b => a.id ≤ b.id) :=
          ⟨fun _ _ _ h1 h2 => le_trans h1 h2⟩
        have hsortle : List.Pairwise (fun a b : MemoryEdge => a.id ≤ b.id) sorted :=
          List.sorted_insertionSort _ _
        have hsortne : List.Pairwise (fun a b : MemoryEdge => a.id ≠ b.id) sorted :=
          List.pairwise_map.mp hndsorted
        have hsortlt : List.Pairwise (fun a b : MemoryEdge => a.id < b.id) sorted := by
          have := List.Pairwise.and hsortle hsortne
          exact this.imp fun h => lt_of_le_of_ne h.1 h.2
        have := neighborsLoop_pairwise s id direction includeEmbedding (some un)
          (fun a b => a.id < b.id) sorted limit hsortlt
        rw [← hres] at this
        exact this.imp fun h => Or.inl h
      · -- membership facts
        intro gn hgn
        obtain ⟨hedge, nid, node2, htarget, hget2, hstrip, hdenied2⟩ :=
          neighborsLoop_mem s id direction includeEmbedding (some un) sorted limit gn hgn
        have hvisit : gn.edge ∈ toVisit := by
          rw [hsorted] at hedge
          exact (List.mem_insertionSort _).mp hedge
        have hfilter := (List.mem_filter.mp (htv ▸ hvisit)).2
        have hok := Bool.and_eq_true_iff.mp hfilter
        have howner2 : ownerFromMetadata gn.edge.metadata = un := by
          have := hok.1
          simpa [edgeOwnerOk] using this
        have hrel : ∀ r, relation = some r → gn.edge.relation = r := by
          intro r hr
          have := hok.2
          rw [hr] at this
          simpa [relationOk] using this
        have hnodeowner : ownerFromMetadata gn.node.metadata = un := by
          rw [hstrip, stripEmbedding_metadata]
          have : ¬ (ownerFromMetadata node2.metadata ≠ un) := by
            simpa [ownerDenied] using hdenied2
          exact not_not.mp this
        have hnid : gn.node.id = nid := by
          rw [hstrip, stripEmbedding_id]
          exact hwfN (nid, node2) (aget_mem _ _ _ hget2)
        exact ⟨howner2, hnodeowner, hrel, by rw [htarget, hnid]⟩

/-- Empty graph store, mirroring InMemoryGraphStore::new. -/
def emptyGraph : GraphState := ⟨[], [], [], [], []⟩

/-- Node n0 as stored by the witness graph below (user_name stamped by
add_nodes_batch). -/
def witnessNodeN0 : MemoryNode :=
  ⟨"n0", "root", [("scope", .str "LongTermMemory"), ("user_name", .str "u1")], none⟩

/-- Concrete graph built through the store operations, mirroring the source
test neighbors_are_deterministic_and_limited: nodes n0 n1 n2 owned by u1,
outbound edges e2 (n0 to n2) and e1 (n0 to n1) with relation related_to. -/
def witnessGraph : GraphState :=
  (addEdgesBatch
    (addNodesBatch emptyGraph
      [⟨"n0", "root", [("scope", .str "LongTermMemory")], none⟩,
       ⟨"n1", "node1", [("scope", .str "LongTermMemory")], none⟩,
       ⟨"n2", "node2", [("scope", .str "LongTermMemory")], none⟩]
      (some "u1"))
    [⟨"e2", "n0", "n2", "related_to", []⟩, ⟨"e1", "n0", "n1", "related_to", []⟩]
    (some "u1")).1

/-- Witness for C7, on the concrete graph of the source test
neighbors_are_deterministic_and_limited: node n0 with outbound edges e2 to n2
and e1 to n1, all owned by u1. -/
theorem getNeighbors_spec_witness :
    ((∀ kv ∈ (witnessGraph).edges, kv.2.id = kv.1) ∧
      (∀ kv ∈ (witnessGraph).nodes, kv.2.id = kv.1) ∧
      aget (witnessGraph).nodes "n0" = some witnessNodeN0 ∧
      ownerFromMetadata witnessNodeN0.metadata = "u1") ∧
    (∃ l, getNeighbors witnessGraph "n0" (some "related_to") .outbound 10 false
        (some "u1") = .ok l ∧
      l.length ≤ 10 ∧
      (10 = 0 → l = []) ∧
      List.Pairwise (fun a b : GraphNeighbor =>
        a.edge.id < b.edge.id ∨ (a.edge.id = b.edge.id ∧ a.node.id < b.node.id)) l ∧
      (∀ gn ∈ l,
        ownerFromMetadata gn.edge.metadata = "u1" ∧
        ownerFromMetadata gn.node.metadata = "u1" ∧
        (∀ r, (some "related_to" : Option String) = some r → gn.edge.relation = r) ∧
        neighborTarget .outbound "n0" gn.edge = some gn.node.id) ∧
      getNeighbors witnessGraph "n0" (some "related_to") .outbound 10 false (some "u1") =
        getNeighbors witnessGraph "n0" (some "related_to") .outbound 10 false (some "u1")) :=
  ⟨⟨by decide, by decide, by decide, by decide⟩,
    getNeighbors_spec witnessGraph "n0" (some "related_to") .outbound 10 false
      "u1" witnessNodeN0 (by decide) (by decide) (by decide) (by decide)⟩

/-- Internal shortest-path result (GraphPath in dto.rs). -/
structure GraphPath : Type where
  node_ids : List String
  edges : List MemoryEdge
  deriving DecidableEq, Repr

/-- Combined up-front owner check of shortest_path and find_paths: source and
target must both belong to the caller. -/
def pathOwnerDenied (userName : Option String) (source target : MemoryNode) : Bool :=
  ownerDenied userName source || ownerDenied userName target

/-- Candidate transitions from one BFS node of shortest_path: incident edge
ids by direction, deduplicated, each edge filtered by owner and relation, the
far node by existence, owner and (unless include_deleted) tombstone state;
sorted by (edge.id, next node id) exactly as the source sorts before frontier
insertion. -/
def bfsTransitions (s : GraphState) (relation : Option String)
    (direction : GraphDirection) (includeDeleted : Bool)
    (userName : Option String) (current : String) : List (String × MemoryEdge) :=
  let collected := (directionEdgeIds s direction current).dedup.filterMap fun eid =>
    match aget s.edges eid with
    | none => none
    | some edge =>
        if edgeOwnerOk userName edge && relationOk relation edge then
          match neighborTarget direction current edge with
          | none => none
          | some nextId =>
              match aget s.nodes nextId with
              | none => none
              | some nextNode =>
                  if ownerDenied userName nextNode then none
                  else if !includeDeleted && isTombstone nextNode.metadata then none
                  else some (nextId, edge)
        else none
  collected.insertionSort fun a b =>
    a.2.id < b.2.id ∨ (a.2.id = b.2.id ∧ a.1 ≤ b.1)

/-- Backwards path reconstruction of shortest_path over the prev map, with
fuel (the source while loop terminates because prev is acyclic; fuel
exhaustion maps to the same error as a missing prev entry). -/
def reconstructGo (prev : List (String × (String × MemoryEdge)))
    (sourceId : String) :
    Nat → String → List String → List MemoryEdge → Except String GraphPath
  | 0, _, _, _ => .error "path reconstruction failed"
  | fuel + 1, cursor, revNodes, revEdges =>
      if cursor = sourceId then .ok ⟨revNodes.reverse, revEdges.reverse⟩
      else
        match aget prev cursor with
        | none => .error "path reconstruction failed"
        | some pe => reconstructGo prev sourceId fuel pe.1
            (revNodes ++ [pe.1]) (revEdges ++ [pe.2])

/-- Mirror of the reconstruction block of shortest_path. -/
def reconstructPath (prev : List (String × (String × MemoryEdge)))
    (sourceId targetId : String) : Except String GraphPath :=
  reconstructGo prev sourceId (prev.length + 1) targetId [targetId] []

/-- Inner frontier-insertion loop of shortest_path over the sorted
transitions: skip visited nodes, record prev, return the reconstructed path
as soon as the target is reached, otherwise push to the queue. -/
def bfsExpand (sourceId targetId current : String) (depth : Nat) :
    List (String × MemoryEdge) → List (String × Nat) → List String →
    List (String × (String × MemoryEdge)) →
    Except String GraphPath ⊕
      (List (String × Nat) × List String × List (String × (String × MemoryEdge)))
  | [], queue, visited, prev => .inr (queue, visited, prev)
  | (nextId, edge) :: rest, queue, visited, prev =>
      if nextId ∈ visited then
        bfsExpand sourceId targetId current depth rest queue visited prev
      else
        let visited2 := visited ++ [nextId]
        let prev2 := ainsert prev nextId (current, edge)
        if nextId = targetId then .inl (reconstructPath prev2 sourceId targetId)
        else
          bfsExpand sourceId targetId current depth rest
            (queue ++ [(nextId, depth + 1)]) visited2 prev2

/-- Outer BFS loop of shortest_path, with fuel: each iteration pops one queue
entry, and at most one entry per node ever enters the queue, so
nodes.length + 1 fuel always suffices. -/
def bfsLoop (s : GraphState) (sourceId targetId : String)
    (relation : Option String) (direction : GraphDirection) (maxDepth : Nat)
    (includeDeleted : Bool) (userName : Option String) :
    Nat → List (String × Nat) → List String →
    List (String × (String × MemoryEdge)) → Except String (Option GraphPath)
  | 0, _, _, _ => .ok none
  | _ + 1, [], _, _ => .ok none
  | fuel + 1, (current, depth) :: queueRest, visited, prev =>
      if maxDepth ≤ depth then
        bfsLoop s sourceId targetId relation direction maxDepth includeDeleted
          userName fuel queueRest visited prev
      else
        let transitions :=
          bfsTransitions s relation direction includeDeleted userName current
        match bfsExpand sourceId targetId current depth transitions queueRest
            visited prev with
        | .inl (.ok path) => .ok (some path)
        | .inl (.error e) => .error e
        | .inr qvp =>
            bfsLoop s sourceId targetId relation direction maxDepth includeDeleted
              userName fuel qvp.1 qvp.2.1 qvp.2.2

/-- Mirror of InMemoryGraphStore::shortest_path. -/
def shortestPath (s : GraphState) (sourceId targetId : String)
    (relation : Option String) (direction : GraphDirection) (maxDepth : Nat)
    (includeDeleted : Bool) (userName : Option String) :
    Except String (Option GraphPath) :=
  if maxDepth = 0 ∧ sourceId ≠ targetId then .ok none
  else
    match aget s.nodes sourceId with
    | none => .error ("node not found: " ++ sourceId)
    | some source =>
        match aget s.nodes targetId with
        | none => .error ("node not found: " ++ targetId)
        | some target =>
            if pathOwnerDenied userName source target then
              .error ("node not found or access denied: " ++ sourceId ++ " -> " ++ targetId)
            else if !includeDeleted &&
                (isTombstone source.metadata || isTombstone target.metadata) then
              .ok none
            else if sourceId = targetId then
              .ok (some ⟨[sourceId], []⟩)
            else
              bfsLoop s sourceId targetId relation direction maxDepth
                includeDeleted userName (s.nodes.length + 1)
                [(sourceId, 0)] [sourceId] []

/-- Concrete store holding one tombstoned node a owned by u, built through the
store operations. -/
def tombGraph : GraphState :=
  addNodesBatch emptyGraph
    [⟨"a", "A", [("scope", .str "LongTermMemory"), ("state", .str "tombstone")], none⟩]
    (some "u")

/-- Node a as stored in tombGraph. -/
def tombNode : MemoryNode :=
  ⟨"a", "A", [("scope", .str "LongTermMemory"), ("state", .str "tombstone"),
    ("user_name", .str "u")], none⟩

/-- Counterexample to claim C8 as stated: with max_depth = 0 and
source == target, an existing caller-owned but tombstoned node yields no path
(include_deleted = false), not the trivial one-node path the claim requires
for every source == target call. -/
theorem shortestPath_maxDepth_zero_counterexample :
    shortestPath tombGraph "a" "a" none .outbound 0 false (some "u") = .ok none ∧
      (Except.ok none : Except String (Option GraphPath)) ≠
        .ok (some ⟨["a"], []⟩) := by
  constructor
  · rfl
  · intro h
    simp at h

/-- Claim C8, amended.  With max_depth = 0: when source differs from target no
path is returned, for any state and arguments (the guard precedes all
validation); when source equals target and the node exists and is owned by the
caller, the trivial one-node path is returned exactly when the node is not
hidden, i.e. unless the node is tombstoned and include_deleted is false. -/
theorem shortestPath_maxDepth_zero (s : GraphState) (sourceId targetId : String)
    (relation : Option String) (direction : GraphDirection)
    (includeDeleted : Bool) (un : String) :
    (sourceId ≠ targetId →
      shortestPath s sourceId targetId relation direction 0 includeDeleted
        (some un) = .ok none) ∧
    (∀ node, sourceId = targetId → aget s.nodes sourceId = some node →
      ownerFromMetadata node.metadata = un →
      shortestPath s sourceId targetId relation direction 0 includeDeleted
        (some un) =
        .ok (if !includeDeleted && isTombstone node.metadata then none
          else some ⟨[sourceId], []⟩)) := by
  constructor
  · intro hne
    rw [shortestPath]
    simp [hne]
  · intro node heq hget howner
    subst heq
    have hden : pathOwnerDenied (some un) node node = false := by
      simp [pathOwnerDenied, ownerDenied, howner]
    rw [shortestPath]
    simp only [ne_eq, not_true_eq_false, and_false, if_false, hget, hden,
      Bool.false_eq_true, Bool.or_self]
    by_cases htomb : (!includeDeleted && isTombstone node.metadata) = true
    · simp [htomb]
    · have htomb2 : (!includeDeleted && isTombstone node.metadata) = false := by
        revert htomb; cases h : (!includeDeleted && isTombstone node.metadata) <;> simp
      simp [htomb2]

/-- Witness for the amended C8: on the tombstoned node with
include_deleted = true the trivial path is returned; its hypotheses hold by
computation. -/
theorem shortestPath_maxDepth_zero_witness :
    (("a" : String) = "a" ∧ aget tombGraph.nodes "a" = some tombNode ∧
      ownerFromMetadata tombNode.metadata = "u") ∧
      shortestPath tombGraph "a" "a" none .outbound 0 true (some "u") =
        .ok (if !true && isTombstone tombNode.metadata then none
          else some ⟨["a"], []⟩) :=
  ⟨⟨rfl, by decide, by decide⟩,
    (shortestPath_maxDepth_zero tombGraph "a" "a" none .outbound true "u").2
      tombNode rfl (by decide) (by decide)⟩

/-- Field application of InMemoryGraphStore::update_node: the reserved key
memory replaces the node text (as_str, empty string for non-strings); every
other key is merged into the metadata.  The source iterates a HashMap in
arbitrary order over distinct keys; the field list order is the canonical
iteration order of the model. -/
def applyFields (node : MemoryNode) (fields : Smap) : MemoryNode :=
  fields.foldl
    (fun n kv =>
      if kv.1 = "memory" then { n with memory := (jAsStr kv.2).getD "" }
      else { n with metadata := sinsert n.metadata kv.1 kv.2 })
    node

/-- Mirror of InMemoryGraphStore::update_node. -/
def updateNode (s : GraphState) (id : String) (fields : Smap)
    (userName : Option String) : GraphState × Except String Unit :=
  match aget s.nodes id with
  | none => (s, .error ("node not found: " ++ id))
  | some node =>
      if ownerDenied userName node then
        (s, .error ("node not found or access denied: " ++ id))
      else
        ({ s with nodes := ainsert s.nodes id (applyFields node fields) }, .ok ())

/-- One edge-deletion step of delete_edges_by_node: remove the edge from the
edge map and unindex it (skip already-gone ids), counting deletions. -/
def deleteEdgeStep (acc : GraphState × Nat) (eid : String) : GraphState × Nat :=
  match aget acc.1.edges eid with
  | some edge =>
      ({ acc.1 with
          edges := aremove acc.1.edges eid
          outIndex := removeEdgeFromIndex acc.1.outIndex edge.fromId edge.id
          inIndex := removeEdgeFromIndex acc.1.inIndex edge.toId edge.id },
        acc.2 + 1)
  | none => acc

/-- Owner check of delete_edges_by_node: true when any incident edge belongs
to a tenant other than the given one. -/
def deleteEdgesDenied (s : GraphState) (userName : Option String)
    (edgeIds : List String) : Bool :=
  match userName with
  | some un => edgeIds.any fun eid =>
      match aget s.edges eid with
      | some e => decide (ownerFromMetadata e.metadata ≠ un)
      | none => false
  | none => false

/-- Mirror of InMemoryGraphStore::delete_edges_by_node: collect the incident
edge ids (union of both adjacency lists, deduplicated like the source
HashSet), fail with no deletion when any incident edge belongs to another
tenant, otherwise remove every incident edge from the edge map and both
indices and return the count. -/
def deleteEdgesByNode (s : GraphState) (id : String) (userName : Option String) :
    GraphState × Except String Nat :=
  let edgeIds := (agetD s.outIndex id [] ++ agetD s.inIndex id []).dedup
  if edgeIds.isEmpty then (s, .ok 0)
  else if deleteEdgesDenied s userName edgeIds then
    (s, .error "edge not found or access denied")
  else
    let sn := edgeIds.foldl deleteEdgeStep (s, 0)
    (sn.1, .ok sn.2)

/-- Mirror of InMemoryGraphStore::delete_node: owner check, remove the node,
prune it from every scope list, then delete incident edges.  As in the
source, the node removal precedes the edge deletion, so a failing edge
deletion still leaves the node removed. -/
def deleteNode (s : GraphState) (id : String) (userName : Option String) :
    GraphState × Except String Unit :=
  match aget s.nodes id with
  | none => (s, .error ("node not found: " ++ id))
  | some node =>
      if ownerDenied userName node then
        (s, .error ("node not found or access denied: " ++ id))
      else
        let s1 := { s with
          nodes := aremove s.nodes id
          scopeIndex := s.scopeIndex.map fun um =>
            (um.1, um.2.map fun sl => (sl.1, sl.2.filter fun x => decide (x ≠ id))) }
        match deleteEdgesByNode s1 id userName with
        | (s2, .ok _) => (s2, .ok ())
        | (s2, .error e) => (s2, .error e)

/-! ## InMemoryKeywordStore (crates/mem-vec/src/keyword_store.rs) -/

/-- Tokenizer of keyword_store.rs: lowercase, split on every non-alphanumeric
code point, drop empty tokens.  Text is modelled as a character list; the
char-level toLower and isAlphanum match the source on ASCII (the source
to_lowercase and is_alphanumeric are Unicode-aware, which the model does not
capture beyond ASCII). -/
def tokenizeAux : List Char → List Char → List (List Char)
  | [], cur => if cur.isEmpty then [] else [cur.reverse]
  | c :: rest, cur =>
      if c.isAlphanum then tokenizeAux rest (c :: cur)
      else if cur.isEmpty then tokenizeAux rest []
      else cur.reverse :: tokenizeAux rest []

/-- Mirror of keyword_store.rs tokenize. -/
def tokenize (text : List Char) : List (List Char) :=
  tokenizeAux (text.map Char.toLower) []

/-- Per-user index of keyword_store.rs: term to (doc id to term frequency)
postings and doc id to document length. -/
structure UserIndex : Type where
  termDocTf : List (List Char × List (String × Nat))
  docLength : List (String × Nat)
  deriving DecidableEq, Repr

/-- Empty per-user index, mirroring UserIndex::new. -/
def emptyUserIndex : UserIndex := ⟨[], []⟩

/-- Term occurrence counts of a token list (the term_counts HashMap of
UserIndex::index_doc). -/
def countTerms (terms : List (List Char)) : List (List Char × Nat) :=
  terms.foldl (fun acc t => aupdate acc t (· + 1) 0) []

/-- Mirror of UserIndex::index_doc. -/
def indexDoc (idx : UserIndex) (docId : String) (text : List Char) : UserIndex :=
  let terms := tokenize text
  let len := terms.length
  let docLength := ainsert idx.docLength docId len
  let termDocTf := (countTerms terms).foldl
    (fun acc tc => aupdate acc tc.1 (fun postings => ainsert postings docId tc.2) [])
    idx.termDocTf
  ⟨termDocTf, docLength⟩

/-- Mirror of UserIndex::remove_doc (postings entries stay, emptied). -/
def removeDoc (idx : UserIndex) (docId : String) : UserIndex :=
  ⟨idx.termDocTf.map fun tp => (tp.1, aremove tp.2 docId),
    aremove idx.docLength docId⟩

/-- Keyword store state: per-user indices (InMemoryKeywordStore.by_user). -/
abbrev KwState := List (String × UserIndex)

/-- Mirror of InMemoryKeywordStore::user_key. -/
def kwUserKey (userName : Option String) : String := userName.getD ""

/-- Mirror of InMemoryKeywordStore::index. -/
def kwIndex (st : KwState) (docId : String) (text : List Char)
    (userName : Option String) : KwState :=
  let key := kwUserKey userName
  ainsert st key (indexDoc (agetD st key emptyUserIndex) docId text)

/-- Mirror of InMemoryKeywordStore::remove (no-op when the user has no
index). -/
def kwRemove (st : KwState) (docId : String) (userName : Option String) : KwState :=
  let key := kwUserKey userName
  match aget st key with
  | some idx => ainsert st key (removeDoc idx docId)
  | none => st

/-! ## NaiveMemCube (crates/mem-cube/src/naive.rs) and DTOs (mem-types) -/

/-- Error taxonomy of MemCubeError (traits.rs), message payloads kept. -/
inductive MemCubeErr : Type where
  | other (msg : String)
  | badRequest (msg : String)
  | notFound (msg : String)
  | embedder (msg : String)
  | graph (msg : String)
  | vec (msg : String)
  | keyword (msg : String)
  deriving DecidableEq, Repr

/-- Relation spec of an add request (AddMemoryRelation in dto.rs). -/
structure AddMemoryRelation : Type where
  memory_id : String
  relation : String
  direction : GraphDirection
  metadata : Smap
  deriving DecidableEq, Repr

/-- Add-memory request (ApiAddRequest in dto.rs).  Messages are (role,
content) pairs; async_mode and is_feedback are omitted because add_memories
never reads them (async routing happens in the transport). -/
structure ApiAddRequest : Type where
  user_id : String
  session_id : Option String
  task_id : Option String
  writable_cube_ids : Option (List String)
  mem_cube_id : Option String
  messages : Option (List (String × String))
  memory_content : Option String
  chat_history : Option (List (String × String))
  custom_tags : Option (List String)
  info : Option Smap
  relations : Option (List AddMemoryRelation)
  deriving DecidableEq, Repr

/-- Mirror of ApiAddRequest::writable_cube_ids. -/
def writableCubeIds (req : ApiAddRequest) : List String :=
  match req.writable_cube_ids with
  | some ids => if !ids.isEmpty then ids else
      match req.mem_cube_id with
      | some id => [id]
      | none => [req.user_id]
  | none =>
      match req.mem_cube_id with
      | some id => [id]
      | none => [req.user_id]

/-- Mirror of ApiAddRequest::content_to_store: join non-empty messages as
lines of role: content, else fall back to memory_content (present or not). -/
def contentToStore (req : ApiAddRequest) : Option String :=
  match req.messages with
  | some msgs =>
      if !msgs.isEmpty then
        some (String.intercalate "\n" (msgs.map fun m => m.1 ++ ": " ++ m.2))
      else req.memory_content
  | none => req.memory_content

/-- Mirror of NaiveMemCube::normalize_scope: trim, ascii-lowercase, strip
space dash underscore, then map through the synonym table. -/
def normalizeScope (scope : String) : Option String :=
  let normalized := String.mk ((scope.trim.toLower).data.filter
    fun c => !(c = ' ' || c = '-' || c = '_'))
  if normalized = "workingmemory" ∨ normalized = "working" ∨
      normalized = "shortterm" ∨ normalized = "shorttermmemory" ∨
      normalized = "stm" ∨ normalized = "recent" then some "WorkingMemory"
  else if normalized = "usermemory" ∨ normalized = "user" ∨
      normalized = "midterm" ∨ normalized = "midtermmemory" ∨
      normalized = "profile" ∨ normalized = "preference" then some "UserMemory"
  else if normalized = "longtermmemory" ∨ normalized = "longterm" ∨
      normalized = "ltm" then some "LongTermMemory"
  else none

/-- Mirror of NaiveMemCube::resolve_scope_or_error. -/
def resolveScopeOrError (req : ApiAddRequest) (defaultScope : String) :
    Except MemCubeErr String :=
  let scopeValue := req.info.bind fun i =>
    match sget i "scope" with
    | some v => some v
    | none => sget i "memory_scope"
  match scopeValue with
  | none => .ok defaultScope
  | some v =>
      match jAsStr v with
      | none => .error (.badRequest "scope must be a string")
      | some s =>
          match normalizeScope s with
          | some ns => .ok ns
          | none => .error (.badRequest ("invalid scope value: " ++ s))

/-- Edge construction of the relations step of add_memories: one edge per
outbound or inbound relation, two for both; every edge gets a fresh id
(modelled by mkEdgeId on a running counter) and created_at stamped into the
relation metadata. -/
def buildRelationEdges (id now : String) (mkEdgeId : Nat → String)
    (relations : List AddMemoryRelation) : List MemoryEdge :=
  (relations.foldl
    (fun (acc : List MemoryEdge × Nat) rel =>
      let baseMd := sinsert rel.metadata "created_at" (.str now)
      match rel.direction with
      | .outbound =>
          (acc.1 ++ [⟨mkEdgeId acc.2, id, rel.memory_id, rel.relation, baseMd⟩],
            acc.2 + 1)
      | .inbound =>
          (acc.1 ++ [⟨mkEdgeId acc.2, rel.memory_id, id, rel.relation, baseMd⟩],
            acc.2 + 1)
      | .both =>
          (acc.1 ++ [⟨mkEdgeId acc.2, id, rel.memory_id, rel.relation, baseMd⟩,
              ⟨mkEdgeId (acc.2 + 1), rel.memory_id, id, rel.relation, baseMd⟩],
            acc.2 + 2))
    ([], 0)).1

/-- Metadata assembly of add_memories step 3: scope, created_at, the optional
request fields, all info fields, then scope re-stamped to the canonical
value. -/
def addMetadata (req : ApiAddRequest) (scope now : String) : Smap :=
  let md1 := sinsert [] "scope" (.str scope)
  let md2 := sinsert md1 "created_at" (.str now)
  let md3 := match req.session_id with
    | some sid => sinsert md2 "session_id" (.str sid)
    | none => md2
  let md4 := match req.task_id with
    | some tid => sinsert md3 "task_id" (.str tid)
    | none => md3
  let md5 := match req.custom_tags with
    | some tags => sinsert md4 "custom_tags" (.strList tags)
    | none => md4
  let md6 := match req.chat_history with
    | some ch => sinsert md5 "chat_history" (.msgList ch)
    | none => md5
  match req.info with
  | some info =>
      sinsert (info.foldl (fun acc kv => sinsert acc kv.1 kv.2) md6)
        "scope" (.str scope)
  | none => md6

/-- Vector payload of add_memories step 6. -/
def addPayload (userName scope : String) : Smap :=
  sinsert (sinsert (sinsert [] "mem_cube_id" (.str userName))
    "memory_type" (.str "text_mem")) "scope" (.str scope)

/-- Steps 6 and 7 of add_memories: insert the vector entry, then run the
keyword indexing step; on keyword failure delete the vector entry and the
graph node and return the Keyword error.  kwStep is the modelled outcome of
the configured keyword store's index call (none: no store configured); the
in-memory vector add is infallible, so the source vec-error rollback branch
is unreachable in this composition. -/
def addFinish (vec : VecState) (freshId content userName scope : String)
    (embedding : List ℚ) (kwStep : Option (Except String Unit))
    (g : GraphState) :
    Except MemCubeErr (String × String) × GraphState × VecState :=
  let item : VecStoreItem := ⟨freshId, embedding, addPayload userName scope⟩
  let vec1 := vecAdd vec [item]
  match kwStep with
  | some (.error e) =>
      (.error (.keyword e), (deleteNode g freshId (some userName)).1,
        vecDelete vec1 [freshId])
  | _ => (.ok (freshId, content), g, vec1)

/-- Mirror of NaiveMemCube::add_memories (sync path) over the in-memory graph
and vector stores.  External effects are parameters: embed stands for the
embedder (its failure path is not modelled), freshId and mkEdgeId for the
UUID generator, now for the clock, and kwStep for the keyword indexing
outcome. -/
def addMemories (graph : GraphState) (vec : VecState) (defaultScope : String)
    (embed : String → List ℚ) (freshId : String) (mkEdgeId : Nat → String)
    (now : String) (kwStep : Option (Except String Unit)) (req : ApiAddRequest) :
    Except MemCubeErr (String × String) × GraphState × VecState :=
  match contentToStore req with
  | none => (.error (.other "no messages or memory_content in request"), graph, vec)
  | some content =>
      let userName := (writableCubeIds req).head?.getD req.user_id
      match resolveScopeOrError req defaultScope with
      | .error e => (.error e, graph, vec)
      | .ok scope =>
          let node : MemoryNode :=
            ⟨freshId, content, addMetadata req scope now, some (embed content)⟩
          let graph1 := addNodesBatch graph [node] (some userName)
          match req.relations with
          | some rels =>
              if !rels.isEmpty then
                match addEdgesBatch graph1
                    (buildRelationEdges freshId now mkEdgeId rels)
                    (some userName) with
                | (graph2, .error e) =>
                    (.error (.graph e),
                      (deleteNode graph2 freshId (some userName)).1, vec)
                | (graph2, .ok _) =>
                    addFinish vec freshId content userName scope (embed content)
                      kwStep graph2
              else
                addFinish vec freshId content userName scope (embed content)
                  kwStep graph1
          | none =>
              addFinish vec freshId content userName scope (embed content)
                kwStep graph1

/-- Time range of a search request (TimeRange in dto.rs; the end field is
renamed endTime because end is a Lean keyword). -/
structure TimeRange : Type where
  start : String
  endTime : String
  deriving DecidableEq, Repr

/-- Search request (ApiSearchRequest in dto.rs).  Fields the search path never
reads (session_id, include_preference, pref_top_k) are omitted; the until
field is renamed untilT because until is a Lean keyword. -/
structure ApiSearchRequest : Type where
  query : String
  user_id : String
  readable_cube_ids : Option (List String)
  mem_cube_id : Option String
  top_k : Nat
  relativity : ℚ
  filter : Option Smap
  time_range : Option TimeRange
  since : Option String
  untilT : Option String
  deriving DecidableEq, Repr

/-- Mirror of ApiSearchRequest::readable_cube_ids. -/
def readableCubeIds (req : ApiSearchRequest) : List String :=
  match req.readable_cube_ids with
  | some ids => if !ids.isEmpty then ids else
      match req.mem_cube_id with
      | some id => [id]
      | none => [req.user_id]
  | none =>
      match req.mem_cube_id with
      | some id => [id]
      | none => [req.user_id]

/-- Owner cube resolved by search_memories: first readable cube id, else the
user id (the readable list is never empty, so the fallback never fires). -/
def resolvedReadOwner (req : ApiSearchRequest) : String :=
  (readableCubeIds req).head?.getD req.user_id

/-- Filter passed by search_memories to VecStore::search: the caller filter
with mem_cube_id overridden to the resolved owner. -/
def mergedFilter (req : ApiSearchRequest) : Smap :=
  sinsert (req.filter.getD []) "mem_cube_id" (.str (resolvedReadOwner req))

/-- Mirror of NaiveMemCube::filter_nodes_by_time. -/
def filterNodesByTime (nodes : List MemoryNode) (req : ApiSearchRequest) :
    List MemoryNode :=
  if req.since = none ∧ req.untilT = none ∧ req.time_range = none then nodes
  else
    nodes.filter fun n =>
      let createdAt := ((sget n.metadata "created_at").bind jAsStr).getD ""
      let se : Option String × Option String :=
        match req.time_range with
        | some tr => (some tr.start, some tr.endTime)
        | none => (req.since, req.untilT)
      let passesStart := match se.1 with
        | some s => decide (s ≤ createdAt)
        | none => true
      let passesEnd := match se.2 with
        | some e => decide (createdAt ≤ e)
        | none => true
      passesStart && passesEnd

/-- Memory item of a search response (MemoryItem in dto.rs). -/
structure MemoryItem : Type where
  id : String
  memory : String
  metadata : Smap
  deriving DecidableEq, Repr

/-- Response bucket (MemoryBucket in dto.rs). -/
structure MemoryBucket : Type where
  name : Option String
  memories : List MemoryItem
  total_nodes : Option Nat
  deriving DecidableEq, Repr

/-- Search response payload (SearchResponseData in dto.rs; pref_mem is always
empty in the source and omitted). -/
structure SearchData : Type where
  text_mem : List MemoryBucket
  deriving DecidableEq, Repr

/-- Mirror of NaiveMemCube::bucket_name_for_scope. -/
def bucketNameForScope (scope : String) : Option String :=
  if scope = "WorkingMemory" then some "short_term"
  else if scope = "UserMemory" then some "mid_term"
  else if scope = "LongTermMemory" then some "long_term"
  else none

/-- Vector hits of search_memories: merged-filter top-k search, then the
relativity threshold filter when positive. -/
def searchHits (vec : VecState) (sim : List ℚ → List ℚ → ℚ)
    (embed : String → List ℚ) (req : ApiSearchRequest) : List VecSearchHit :=
  let hits0 := vecSearch sim (embed req.query) req.top_k
    (some (mergedFilter req)) (vecValues vec)
  if 0 < req.relativity then hits0.filter fun h => req.relativity ≤ h.score
  else hits0

/-- Memory list of search_memories: nodes of the hit ids, time filtered,
tombstones dropped, the vector score stamped into metadata as relativity. -/
def searchMemoriesList (graph : GraphState) (vec : VecState)
    (sim : List ℚ → List ℚ → ℚ) (embed : String → List ℚ)
    (req : ApiSearchRequest) : List MemoryItem :=
  let hits := searchHits vec sim embed req
  ((filterNodesByTime (getNodes graph (hits.map VecSearchHit.id) false) req).filter
      fun n =>
        decide (((sget n.metadata "state").bind jAsStr).getD "active" ≠ "tombstone")).map
    fun n =>
      let meta := match hits.find? fun h => h.id = n.id with
        | some h => sinsert n.metadata "relativity" (.num h.score)
        | none => n.metadata
      (⟨n.id, n.memory, meta⟩ : MemoryItem)

/-- Scope buckets of search_memories: one bucket per canonical scope with at
least one hit. -/
def scopeBucketsOf (memories : List MemoryItem) : List MemoryBucket :=
  ["WorkingMemory", "UserMemory", "LongTermMemory"].filterMap fun scope =>
    let scopedMems := memories.filter fun m =>
      decide ((sget m.metadata "scope").bind jAsStr = some scope)
    if scopedMems.isEmpty then none
    else some (⟨bucketNameForScope scope, scopedMems,
      some scopedMems.length⟩ : MemoryBucket)

/-- Mirror of NaiveMemCube::search_memories over the in-memory stores (which
cannot fail, so the graph/vec error paths are unreachable; embed stands for
the embedder). -/
def searchMemories (graph : GraphState) (vec : VecState)
    (sim : List ℚ → List ℚ → ℚ) (embed : String → List ℚ)
    (req : ApiSearchRequest) : SearchData :=
  let hits := searchHits vec sim embed req
  if (hits.map VecSearchHit.id).isEmpty then ⟨[⟨some "all", [], some 0⟩]⟩
  else
    let memories := searchMemoriesList graph vec sim embed req
    ⟨[⟨some "all", memories, some memories.length⟩] ++ scopeBucketsOf memories⟩

/-- Get-memory request (GetMemoryRequest in dto.rs). -/
structure GetMemoryRequest : Type where
  memory_id : String
  user_id : String
  mem_cube_id : Option String
  include_deleted : Bool
  deriving DecidableEq, Repr

/-- Get-memory response: domain code (200 or 404) plus the optional item. -/
structure GetMemoryResponse : Type where
  code : Nat
  data : Option MemoryItem
  deriving DecidableEq, Repr

/-- Mirror of NaiveMemCube::get_memory: 404 for missing, foreign-owned, or
tombstoned (without include_deleted) memories. -/
def getMemory (graph : GraphState) (req : GetMemoryRequest) : GetMemoryResponse :=
  let userName := req.mem_cube_id.getD req.user_id
  match getNode graph req.memory_id false with
  | none => ⟨404, none⟩
  | some node =>
      if ownerFromMetadata node.metadata ≠ userName then ⟨404, none⟩
      else
        let state := ((sget node.metadata "state").bind jAsStr).getD "active"
        if state = "tombstone" ∧ ¬req.include_deleted then ⟨404, none⟩
        else ⟨200, some ⟨node.id, node.memory, node.metadata⟩⟩

/-- Forget-memory request (ForgetMemoryRequest in dto.rs). -/
structure ForgetMemoryRequest : Type where
  memory_id : String
  user_id : String
  mem_cube_id : Option String
  soft : Bool
  deriving DecidableEq, Repr

/-- Mirror of NaiveMemCube::forget_memory over the in-memory stores: owner
check through get_node, then either tombstone-and-unindex (soft) or
hard-delete-and-unindex; the keyword removal result is discarded by the
source, and the in-memory remove is infallible. -/
def forgetMemory (graph : GraphState) (vec : VecState) (kw : Option KwState)
    (now : String) (req : ForgetMemoryRequest) :
    Except MemCubeErr String × GraphState × VecState × Option KwState :=
  let userName := req.mem_cube_id.getD req.user_id
  match getNode graph req.memory_id false with
  | none => (.error (.notFound ("memory not found: " ++ req.memory_id)), graph, vec, kw)
  | some node =>
      if ownerFromMetadata node.metadata ≠ userName then
        (.error (.notFound ("memory not found: " ++ req.memory_id)), graph, vec, kw)
      else if req.soft then
        let fields := sinsert (sinsert [] "state" (.str "tombstone"))
          "updated_at" (.str now)
        match updateNode graph req.memory_id fields (some userName) with
        | (g2, .ok _) =>
            let v2 := vecDelete vec [req.memory_id]
            let kw2 := kw.map fun st => kwRemove st req.memory_id (some userName)
            (.ok req.memory_id, g2, v2, kw2)
        | (g2, .error e) => (.error (.graph e), g2, vec, kw)
      else
        match deleteNode graph req.memory_id (some userName) with
        | (g2, .ok _) =>
            let v2 := vecDelete vec [req.memory_id]
            let kw2 := kw.map fun st => kwRemove st req.memory_id (some userName)
            (.ok req.memory_id, g2, v2, kw2)
        | (g2, .error e) => (.error (.graph e), g2, vec, kw)

/-- Request with no messages and an empty-string memory_content, used to
refute C6 as stated. -/
def c6Req : ApiAddRequest :=
  ⟨"u", none, none, none, none, none, some "", none, none, none, none⟩

/-- Counterexample to claim C6 as stated: a request with no messages and an
empty-string memory_content is not rejected; content_to_store is Some("") and
the add succeeds, creating a graph node. -/
theorem addMemories_empty_content_counterexample :
    (c6Req.messages = none ∧ c6Req.memory_content = some "") ∧
    (addMemories emptyGraph [] "LongTermMemory" (fun _ => [1]) "id1"
        (fun n => "e" ++ toString n) "t0" none c6Req).1 = .ok ("id1", "") ∧
    (aget (addMemories emptyGraph [] "LongTermMemory" (fun _ => [1]) "id1"
        (fun n => "e" ++ toString n) "t0" none c6Req).2.1.nodes "id1").isSome = true :=
  ⟨⟨rfl, rfl⟩, rfl, rfl⟩

/-- Claim C6, amended.  add_memories rejects a request exactly when
content_to_store is None, i.e. when there are no (or only empty) messages and
memory_content is absent; the rejection is an Other error and leaves both
stores untouched, so no node is created.  A present-but-empty memory_content
string is not rejected. -/
theorem addMemories_rejects_no_content (graph : GraphState) (vec : VecState)
    (defaultScope : String) (embed : String → List ℚ) (freshId : String)
    (mkEdgeId : Nat → String) (now : String)
    (kwStep : Option (Except String Unit)) (req : ApiAddRequest) :
    (contentToStore req = none →
      addMemories graph vec defaultScope embed freshId mkEdgeId now kwStep req =
        (.error (.other "no messages or memory_content in request"), graph, vec)) ∧
    (contentToStore req = none ↔
      (req.messages = none ∨ req.messages = some []) ∧ req.memory_content = none) := by
  constructor
  · intro h
    rw [addMemories]
    rw [h]
  · cases hm : req.messages with
    | none =>
        simp only [contentToStore, hm]
        cases hc : req.memory_content <;> simp
    | some msgs =>
        cases msgs with
        | nil =>
            simp only [contentToStore, hm]
            cases hc : req.memory_content <;> simp
        | cons a l =>
            simp only [contentToStore, hm]
            simp

/-- Witness for the amended C6 at a concrete contentless request: the add is
rejected with the Other error and the stores are unchanged. -/
theorem addMemories_rejects_no_content_witness :
    contentToStore ⟨"u", none, none, none, none, none, none, none, none, none, none⟩ = none ∧
      addMemories emptyGraph [] "LongTermMemory" (fun _ => [1]) "id1"
          (fun n => "e" ++ toString n) "t0" none
          ⟨"u", none, none, none, none, none, none, none, none, none, none⟩ =
        (.error (.other "no messages or memory_content in request"), emptyGraph, []) :=
  ⟨rfl, (addMemories_rejects_no_content emptyGraph [] "LongTermMemory"
    (fun _ => [1]) "id1" (fun n => "e" ++ toString n) "t0" none
    ⟨"u", none, none, none, none, none, none, none, none, none, none⟩).1 rfl⟩

theorem aget_none_not_mem {κ α : Type} [DecidableEq κ] (m : List (κ × α))
    (k : κ) (v : α) (h : aget m k = none) : (k, v) ∉ m := by
  induction m with
  | nil => simp
  | cons kv rest ih =>
      by_cases hk : kv.1 = k
      · simp [aget, hk] at h
      · simp only [aget, if_neg hk] at h
        intro hmem
        rcases List.mem_cons.mp hmem with heq | hmem2
        · exact hk (by rw [← heq])
        · exact ih h hmem2

theorem mem_ainsert {κ α : Type} [DecidableEq κ] (m : List (κ × α))
    (k : κ) (v : α) (kv : κ × α) (h : kv ∈ ainsert m k v) :
    kv = (k, v) ∨ kv ∈ m := by
  induction m with
  | nil => simpa [ainsert] using h
  | cons kv2 rest ih =>
      by_cases hk : kv2.1 = k
      · simp only [ainsert, if_pos hk] at h
        rcases List.mem_cons.mp h with heq | hmem
        · exact Or.inl heq
        · exact Or.inr (List.mem_cons_of_mem _ hmem)
      · simp only [ainsert, if_neg hk] at h
        rcases List.mem_cons.mp h with heq | hmem
        · exact Or.inr (heq ▸ List.mem_cons_self _ _)
        · rcases ih hmem with h1 | h2
          · exact Or.inl h1
          · exact Or.inr (List.mem_cons_of_mem _ h2)

/-- Key-value well-formedness (items stored under their own id) is preserved
by InMemoryVecStore::add. -/
theorem vecAdd_wf (vec : VecState) (items : List VecStoreItem)
    (hwf : ∀ kv ∈ vec, kv.2.id = kv.1) :
    ∀ kv ∈ vecAdd vec items, kv.2.id = kv.1 := by
  induction items generalizing vec with
  | nil => exact hwf
  | cons i rest ih =>
      refine ih (ainsert vec i.id i) ?_
      intro kv hkv
      rcases mem_ainsert _ _ _ _ hkv with heq | hmem
      · rw [heq]
      · exact hwf kv hmem

/-- Key-value well-formedness is preserved by InMemoryVecStore::delete. -/
theorem vecDelete_wf (vec : VecState) (ids : List String)
    (hwf : ∀ kv ∈ vec, kv.2.id = kv.1) :
    ∀ kv ∈ vecDelete vec ids, kv.2.id = kv.1 := by
  induction ids generalizing vec with
  | nil => exact hwf
  | cons i rest ih =>
      refine ih (aremove vec i) ?_
      intro kv hkv
      exact hwf kv (List.mem_of_mem_filter hkv)

theorem insertEdge_nodes (s : GraphState) (e : MemoryEdge) :
    (insertEdge s e).nodes = s.nodes := rfl

theorem foldl_preserve_nodes (step : GraphState → MemoryEdge → GraphState)
    (hstep : ∀ s e, (step s e).nodes = s.nodes) :
    ∀ (edges : List MemoryEdge) (s : GraphState),
      (edges.foldl step s).nodes = s.nodes := by
  intro edges
  induction edges with
  | nil => intro s; rfl
  | cons e rest ih =>
      intro s
      rw [List.foldl_cons, ih, hstep]

theorem addEdgesBatch_nodes (s : GraphState) (edges : List MemoryEdge)
    (un : Option String) : (addEdgesBatch s edges un).1.nodes = s.nodes := by
  rw [addEdgesBatch]
  split
  · rfl
  · split
    · rfl
    · exact foldl_preserve_nodes
        (fun acc e => insertEdge acc
          { e with metadata := sinsert e.metadata "user_name" (JVal.str (un.getD "")) })
        (fun _ _ => rfl) edges s

theorem deleteEdgeStep_nodes (acc : GraphState × Nat) (eid : String) :
    (deleteEdgeStep acc eid).1.nodes = acc.1.nodes := by
  rw [deleteEdgeStep]
  split <;> rfl

theorem foldl_deleteEdgeStep_nodes :
    ∀ (l : List String) (acc : GraphState × Nat),
      ((l.foldl deleteEdgeStep acc).1).nodes = acc.1.nodes := by
  intro l
  induction l with
  | nil => intro acc; rfl
  | cons eid rest ih =>
      intro acc
      rw [List.foldl_cons, ih, deleteEdgeStep_nodes]

theorem deleteEdgesByNode_nodes (s : GraphState) (id : String)
    (un : Option String) : (deleteEdgesByNode s id un).1.nodes = s.nodes := by
  rw [deleteEdgesByNode]
  split
  · rfl
  · split
    · rfl
    · exact foldl_deleteEdgeStep_nodes _ (s, 0)

theorem deleteNode_removes (s : GraphState) (id : String) (un : Option String)
    (node : MemoryNode) (hget : aget s.nodes id = some node)
    (hden : ownerDenied un node = false) :
    aget (deleteNode s id un).1.nodes id = none := by
  rw [deleteNode, hget]
  simp only [hden, Bool.false_eq_true, if_false]
  have hbase : aget (aremove s.nodes id) id = none := aget_aremove_self _ _
  split
  · next s2 k heq =>
      have hn := deleteEdgesByNode_nodes
        { s with
          nodes := aremove s.nodes id
          scopeIndex := s.scopeIndex.map fun um =>
            (um.1, um.2.map fun sl => (sl.1, sl.2.filter fun x => decide (x ≠ id))) }
        id un
      rw [heq] at hn
      have hn2 : s2.nodes = aremove s.nodes id := hn
      show aget s2.nodes id = none
      rw [hn2]
      exact hbase
  · next s2 e heq =>
      have hn := deleteEdgesByNode_nodes
        { s with
          nodes := aremove s.nodes id
          scopeIndex := s.scopeIndex.map fun um =>
            (um.1, um.2.map fun sl => (sl.1, sl.2.filter fun x => decide (x ≠ id))) }
        id un
      rw [heq] at hn
      have hn2 : s2.nodes = aremove s.nodes id := hn
      show aget s2.nodes id = none
      rw [hn2]
      exact hbase

theorem ownerFromMetadata_sinsert_ne (m : Smap) (k : String) (v : JVal)
    (h : k ≠ "user_name") :
    ownerFromMetadata (sinsert m k v) = ownerFromMetadata m := by
  rw [ownerFromMetadata, ownerFromMetadata, sget_sinsert_ne m k "user_name" v h]

theorem ownerFromMetadata_stamped (m : Smap) (un : String) :
    ownerFromMetadata (sinsert m "user_name" (.str un)) = un := by
  rw [ownerFromMetadata, sget_sinsert_self]
  rfl

theorem addNodesBatch_single_nodes (s : GraphState) (node : MemoryNode)
    (un : String) :
    (addNodesBatch s [node] (some un)).nodes =
      ainsert s.nodes node.id
        { node with metadata := sinsert node.metadata "user_name" (.str un) } := rfl

/-- resolve_scope_or_error only produces BadRequest errors, never Keyword. -/
theorem resolveScopeOrError_no_keyword (req : ApiAddRequest) (d : String)
    (e : String) : resolveScopeOrError req d ≠ .error (.keyword e) := by
  rw [resolveScopeOrError]
  split
  · simp
  · split
    · simp
    · split <;> simp

theorem getMemory_missing (g : GraphState) (id uid : String)
    (cube : Option String) (incl : Bool) (h : aget g.nodes id = none) :
    getMemory g ⟨id, uid, cube, incl⟩ = ⟨404, none⟩ := by
  rw [getMemory, getNode]
  rw [h]
  rfl

theorem vecSearch_miss (v2 : VecState) (freshId : String)
    (hnone : aget v2 freshId = none) (hwf : ∀ kv ∈ v2, kv.2.id = kv.1) :
    ∀ sim qv topK filter hit,
      hit ∈ vecSearch sim qv topK filter (vecValues v2) → hit.id ≠ freshId := by
  intro sim qv topK filter hit hm heq
  obtain ⟨i, hi, hid, _⟩ := vecSearch_mem_items sim qv topK filter (vecValues v2) hit hm
  obtain ⟨kv, hkv, hsnd⟩ := List.mem_map.mp hi
  have hk : kv.2.id = kv.1 := hwf kv hkv
  have hkey : kv.1 = freshId := by rw [← hk, hsnd, hid, heq]
  have : (freshId, kv.2) ∉ v2 := aget_none_not_mem v2 freshId kv.2 hnone
  apply this
  have : kv = (freshId, kv.2) := by
    cases kv
    simp only at hkey ⊢
    rw [hkey]
  rw [← this]
  exact hkv

/-- Keyword-failure outcome of the final phase of add_memories: whenever it
reports a Keyword error the rollback removed the fresh node and the vector
entry again. -/
theorem addFinish_keyword_rollback (vec : VecState)
    (freshId content userName scope : String) (embedding : List ℚ)
    (kwStep : Option (Except String Unit)) (g : GraphState) (e : String)
    (g2 : GraphState) (v2 : VecState)
    (hwfV : ∀ kv ∈ vec, kv.2.id = kv.1)
    (stamped : MemoryNode) (hg : aget g.nodes freshId = some stamped)
    (hden : ownerDenied (some userName) stamped = false)
    (h : addFinish vec freshId content userName scope embedding kwStep g =
      (.error (.keyword e), g2, v2)) :
    aget g2.nodes freshId = none ∧ aget v2 freshId = none ∧
      (∀ kv ∈ v2, kv.2.id = kv.1) := by
  cases kwStep with
  | none =>
      rw [addFinish] at h
      simp at h
      intro e2 he
      simp at he
  | some r =>
      cases r with
      | ok u =>
          rw [addFinish] at h
          simp at h
          intro e2 he
          simp at he
      | error e0 =>
          rw [addFinish] at h
          simp only [Prod.mk.injEq, Except.error.injEq, MemCubeErr.keyword.injEq] at h
          obtain ⟨-, hG, hV⟩ := h
          refine ⟨?_, ?_, ?_⟩
          · rw [← hG]
            exact deleteNode_removes g freshId (some userName) stamped hg hden
          · rw [← hV]
            exact aget_aremove_self _ _
          · intro kv hkv
            rw [← hV] at hkv
            exact vecDelete_wf _ _ (vecAdd_wf vec _ hwfV) kv hkv

/-- Claim C2.  Whenever add_memories returns a Keyword error (the keyword
indexing step failed after the graph node and the vector entry were written),
the rollback has removed both: the fresh id resolves to no graph node and no
vector entry, a subsequent get on the id answers 404 for every caller, and no
vector search on the resulting store (any query, any filter, in particular
the same tenant's) returns the id. -/
theorem addMemories_keyword_rollback (graph : GraphState) (vec : VecState)
    (defaultScope : String) (embed : String → List ℚ) (freshId : String)
    (mkEdgeId : Nat → String) (now : String)
    (kwStep : Option (Except String Unit)) (req : ApiAddRequest)
    (e : String) (g2 : GraphState) (v2 : VecState)
    (hwfV : ∀ kv ∈ vec, kv.2.id = kv.1)
    (h : addMemories graph vec defaultScope embed freshId mkEdgeId now kwStep req =
      (.error (.keyword e), g2, v2)) :
    aget g2.nodes freshId = none ∧
    aget v2 freshId = none ∧
    (∀ uid cube incl, (getMemory g2 ⟨freshId, uid, cube, incl⟩).code = 404) ∧
    (∀ sim qv topK filter hit,
      hit ∈ vecSearch sim qv topK filter (vecValues v2) → hit.id ≠ freshId) := by
  have main : aget g2.nodes freshId = none ∧ aget v2 freshId = none ∧
      (∀ kv ∈ v2, kv.2.id = kv.1) := by
    rw [addMemories] at h
    split at h
    · simp at h
    · next content hcontent =>
        split at h
        · next e2 hscope =>
            simp only [Prod.mk.injEq, Except.error.injEq] at h
            refine absurd hscope ?_
            rw [h.1]
            exact resolveScopeOrError_no_keyword req defaultScope e
        · next scope hscope =>
            have hstamp : aget (addNodesBatch graph
                [⟨freshId, content, addMetadata req scope now, some (embed content)⟩]
                (some ((writableCubeIds req).head?.getD req.user_id))).nodes freshId =
                some ⟨freshId, content,
                  sinsert (addMetadata req scope now) "user_name"
                    (.str ((writableCubeIds req).head?.getD req.user_id)),
                  some (embed content)⟩ := by
              rw [addNodesBatch_single_nodes]
              exact aget_ainsert_self _ _ _
            have hdenS : ownerDenied
                (some ((writableCubeIds req).head?.getD req.user_id))
                ⟨freshId, content,
                  sinsert (addMetadata req scope now) "user_name"
                    (.str ((writableCubeIds req).head?.getD req.user_id)),
                  some (embed content)⟩ = false := by
              simp [ownerDenied, ownerFromMetadata_stamped]
            simp only [] at h
            split at h
            · next rels hrels =>
                split at h
                · split at h
                  · simp at h
                  · next graph2 a hedges =>
                      have hg2 : aget graph2.nodes freshId =
                          some ⟨freshId, content,
                            sinsert (addMetadata req scope now) "user_name"
                              (.str ((writableCubeIds req).head?.getD req.user_id)),
                            some (embed content)⟩ := by
                        have hn := addEdgesBatch_nodes
                          (addNodesBatch graph
                            [⟨freshId, content, addMetadata req scope now,
                              some (embed content)⟩]
                            (some ((writableCubeIds req).head?.getD req.user_id)))
                          (buildRelationEdges freshId now mkEdgeId rels)
                          (some ((writableCubeIds req).head?.getD req.user_id))
                        rw [hedges] at hn
                        have hn2 : graph2.nodes = (addNodesBatch graph
                            [⟨freshId, content, addMetadata req scope now,
                              some (embed content)⟩]
                            (some ((writableCubeIds req).head?.getD req.user_id))).nodes := hn
                        rw [hn2]
                        exact hstamp
                      exact addFinish_keyword_rollback vec freshId content _ scope
                        (embed content) kwStep graph2 e g2 v2 hwfV _ hg2 hdenS h
                · exact addFinish_keyword_rollback vec freshId content _ scope
                    (embed content) kwStep _ e g2 v2 hwfV _ hstamp hdenS h
            · exact addFinish_keyword_rollback vec freshId content _ scope
                (embed content) kwStep _ e g2 v2 hwfV _ hstamp hdenS h
  refine ⟨main.1, main.2.1, ?_, ?_⟩
  · intro uid cube incl
    rw [getMemory_missing g2 freshId uid cube incl main.1]
  · exact vecSearch_miss v2 freshId main.2.1 main.2.2

/-- Witness for C2: a concrete add whose keyword step fails; the hypotheses
and the traced call are discharged by computation. -/
theorem addMemories_keyword_rollback_witness :
    ((∀ kv ∈ ([] : VecState), kv.2.id = kv.1) ∧
      addMemories emptyGraph [] "LongTermMemory" (fun _ => [1]) "id1"
          (fun n => "e" ++ toString n) "t0" (some (.error "kw down"))
          ⟨"u", none, none, none, none, none, some "hello", none, none, none, none⟩ =
        (.error (.keyword "kw down"),
          (addMemories emptyGraph [] "LongTermMemory" (fun _ => [1]) "id1"
            (fun n => "e" ++ toString n) "t0" (some (.error "kw down"))
            ⟨"u", none, none, none, none, none, some "hello", none, none, none, none⟩).2.1,
          (addMemories emptyGraph [] "LongTermMemory" (fun _ => [1]) "id1"
            (fun n => "e" ++ toString n) "t0" (some (.error "kw down"))
            ⟨"u", none, none, none, none, none, some "hello", none, none, none, none⟩).2.2)) ∧
    (aget (addMemories emptyGraph [] "LongTermMemory" (fun _ => [1]) "id1"
        (fun n => "e" ++ toString n) "t0" (some (.error "kw down"))
        ⟨"u", none, none, none, none, none, some "hello", none, none, none, none⟩).2.1.nodes
        "id1" = none ∧
      aget (addMemories emptyGraph [] "LongTermMemory" (fun _ => [1]) "id1"
        (fun n => "e" ++ toString n) "t0" (some (.error "kw down"))
        ⟨"u", none, none, none, none, none, some "hello", none, none, none, none⟩).2.2
        "id1" = none ∧
      (∀ uid cube incl,
        (getMemory (addMemories emptyGraph [] "LongTermMemory" (fun _ => [1]) "id1"
          (fun n => "e" ++ toString n) "t0" (some (.error "kw down"))
          ⟨"u", none, none, none, none, none, some "hello", none, none, none, none⟩).2.1
          ⟨"id1", uid, cube, incl⟩).code = 404) ∧
      (∀ sim qv topK filter hit,
        hit ∈ vecSearch sim qv topK filter
          (vecValues (addMemories emptyGraph [] "LongTermMemory" (fun _ => [1]) "id1"
            (fun n => "e" ++ toString n) "t0" (some (.error "kw down"))
            ⟨"u", none, none, none, none, none, some "hello", none, none, none, none⟩).2.2) →
          hit.id ≠ "id1")) :=
  ⟨⟨by simp, rfl⟩,
    addMemories_keyword_rollback emptyGraph [] "LongTermMemory" (fun _ => [1])
      "id1" (fun n => "e" ++ toString n) "t0" (some (.error "kw down"))
      ⟨"u", none, none, none, none, none, some "hello", none, none, none, none⟩
      "kw down" _ _ (by simp) rfl⟩

theorem mem_ainsert_self {κ α : Type} [DecidableEq κ] (m : List (κ × α))
    (k : κ) (v : α) : (k, v) ∈ ainsert m k v := by
  induction m with
  | nil => simp [ainsert]
  | cons kv rest ih =>
      by_cases hk : kv.1 = k
      · simp [ainsert, hk]
      · simp only [ainsert, if_neg hk]
        exact List.mem_cons_of_mem _ ih

theorem mem_filterNodesByTime (nodes : List MemoryNode) (req : ApiSearchRequest)
    (n : MemoryNode) (h : n ∈ filterNodesByTime nodes req) : n ∈ nodes := by
  rw [filterNodesByTime] at h
  split at h
  · exact h
  · exact List.mem_of_mem_filter h

theorem searchHits_subset (vec : VecState) (sim : List ℚ → List ℚ → ℚ)
    (embed : String → List ℚ) (req : ApiSearchRequest) (hit : VecSearchHit)
    (h : hit ∈ searchHits vec sim embed req) :
    hit ∈ vecSearch sim (embed req.query) req.top_k
      (some (mergedFilter req)) (vecValues vec) := by
  rw [searchHits] at h
  split at h
  · exact List.mem_of_mem_filter h
  · exact h

theorem searchMemoriesList_mem (graph : GraphState) (vec : VecState)
    (sim : List ℚ → List ℚ → ℚ) (embed : String → List ℚ)
    (req : ApiSearchRequest) (m : MemoryItem)
    (hm : m ∈ searchMemoriesList graph vec sim embed req) :
    ∃ hit n0, hit ∈ vecSearch sim (embed req.query) req.top_k
        (some (mergedFilter req)) (vecValues vec) ∧
      aget graph.nodes hit.id = some n0 ∧
      ownerFromMetadata m.metadata = ownerFromMetadata n0.metadata := by
  rw [searchMemoriesList] at hm
  obtain ⟨n, hn, hmn⟩ := List.mem_map.mp hm
  have hn2 := List.mem_of_mem_filter hn
  have hn3 := mem_filterNodesByTime _ req n hn2
  obtain ⟨idk, hidk, hget⟩ := List.mem_filterMap.mp hn3
  obtain ⟨n0, hn0, hstrip⟩ := Option.map_eq_some'.mp hget
  obtain ⟨hit, hhit, hhid⟩ := List.mem_map.mp hidk
  refine ⟨hit, n0, searchHits_subset vec sim embed req hit hhit,
    by rw [hhid]; exact hn0, ?_⟩
  have howner : ownerFromMetadata m.metadata = ownerFromMetadata n.metadata := by
    rw [← hmn]
    simp only []
    split
    · exact ownerFromMetadata_sinsert_ne _ _ _ (by decide)
    · rfl
  rw [howner, ← hstrip, stripEmbedding_metadata]

/-- Every memory in any bucket of a search response is in the memory list
(scope buckets filter it, the all bucket is it). -/
theorem searchMemories_mem (graph : GraphState) (vec : VecState)
    (sim : List ℚ → List ℚ → ℚ) (embed : String → List ℚ)
    (req : ApiSearchRequest) (m : MemoryItem) (bucket : MemoryBucket)
    (hb : bucket ∈ (searchMemories graph vec sim embed req).text_mem)
    (hm : m ∈ bucket.memories) :
    m ∈ searchMemoriesList graph vec sim embed req := by
  rw [searchMemories] at hb
  simp only [] at hb
  split at hb
  · simp only [List.mem_singleton] at hb
    rw [hb] at hm
    simp at hm
  · rcases List.mem_append.mp hb with hall | hscope
    · simp only [List.mem_singleton] at hall
      rw [hall] at hm
      exact hm
    · rw [scopeBucketsOf] at hscope
      obtain ⟨scope, -, hsb⟩ := List.mem_filterMap.mp hscope
      simp only [] at hsb
      split at hsb
      · exact absurd hsb (by simp)
      · simp only [Option.some.injEq] at hsb
        rw [← hsb] at hm
        exact List.mem_of_mem_filter hm

/-- Claim C1.  The payload filter that search_memories passes to the vector
search always carries mem_cube_id equal to the resolved owner cube (first
readable cube id, else mem_cube_id, else user_id), overriding any
caller-supplied value; consequently, under index consistency (each stored
vector item's payload mem_cube_id names the graph owner of that id), a search
whose caller filter mem_cube_id is some v different from the resolved owner
returns no memory owned by v. -/
theorem searchMemories_filter_override (graph : GraphState) (vec : VecState)
    (sim : List ℚ → List ℚ → ℚ) (embed : String → List ℚ)
    (req : ApiSearchRequest) (v : String)
    (hconsist : ∀ item ∈ vecValues vec, ∀ node,
      aget graph.nodes item.id = some node →
      sget item.payload "mem_cube_id" = some (.str (ownerFromMetadata node.metadata)))
    (hcaller : sget (req.filter.getD []) "mem_cube_id" = some (.str v))
    (hne : v ≠ resolvedReadOwner req) :
    sget (mergedFilter req) "mem_cube_id" = some (.str (resolvedReadOwner req)) ∧
    ∀ bucket ∈ (searchMemories graph vec sim embed req).text_mem,
      ∀ m ∈ bucket.memories, ownerFromMetadata m.metadata ≠ v := by
  refine ⟨sget_sinsert_self _ _ _, ?_⟩
  intro bucket hb m hm heq
  obtain ⟨hit, n0, hhit, hn0, howner⟩ :=
    searchMemoriesList_mem graph vec sim embed req m
      (searchMemories_mem graph vec sim embed req m bucket hb hm)
  obtain ⟨item, hitem, hid, hmatch⟩ :=
    vecSearch_mem_items sim (embed req.query) req.top_k
      (some (mergedFilter req)) (vecValues vec) hit hhit
  have hpay : sget item.payload "mem_cube_id" =
      some (.str (resolvedReadOwner req)) :=
    matchesFilter_forall _ item hmatch "mem_cube_id"
      (.str (resolvedReadOwner req)) (mem_ainsert_self _ _ _)
  have hpay2 : sget item.payload "mem_cube_id" =
      some (.str (ownerFromMetadata n0.metadata)) :=
    hconsist item hitem n0 (by rw [hid]; exact hn0)
  have hown : ownerFromMetadata n0.metadata = resolvedReadOwner req := by
    have := hpay2.symm.trans hpay
    simpa using this
  rw [howner, hown] at heq
  exact hne heq.symm

/-- Concrete store for the C1 witness: one node owned by alice with a
matching vector entry. -/
def c1Graph : GraphState :=
  addNodesBatch emptyGraph
    [⟨"m1", "alice memory", [("scope", .str "LongTermMemory")], none⟩]
    (some "alice")

/-- Concrete vector store for the C1 witness. -/
def c1Vec : VecState :=
  vecAdd [] [⟨"m1", [1], [("mem_cube_id", .str "alice"),
    ("memory_type", .str "text_mem"), ("scope", .str "LongTermMemory")]⟩]

/-- Concrete search request for the C1 witness: alice searches with a caller
filter naming bob. -/
def c1Req : ApiSearchRequest :=
  ⟨"q", "alice", none, none, 10, 0, some [("mem_cube_id", .str "bob")],
    none, none, none⟩

/-- Witness for C1 at the concrete stores and request: all hypotheses hold by
computation, the merged filter carries alice, and no returned memory is owned
by bob. -/
theorem searchMemories_filter_override_witness :
    ((∀ item ∈ vecValues c1Vec, ∀ node,
        aget c1Graph.nodes item.id = some node →
        sget item.payload "mem_cube_id" =
          some (.str (ownerFromMetadata node.metadata))) ∧
      sget (c1Req.filter.getD []) "mem_cube_id" = some (.str "bob") ∧
      ("bob" : String) ≠ resolvedReadOwner c1Req) ∧
    (sget (mergedFilter c1Req) "mem_cube_id" =
        some (.str (resolvedReadOwner c1Req)) ∧
      ∀ bucket ∈ (searchMemories c1Graph c1Vec (fun _ _ => 1)
          (fun _ => [1]) c1Req).text_mem,
        ∀ m ∈ bucket.memories, ownerFromMetadata m.metadata ≠ "bob") :=
  ⟨⟨by decide, by decide, by decide⟩,
    searchMemories_filter_override c1Graph c1Vec (fun _ _ => 1) (fun _ => [1])
      c1Req "bob" (by decide) (by decide) (by decide)⟩

theorem applyFields_tombstone (node : MemoryNode) (now : String) :
    applyFields node (sinsert (sinsert [] "state" (.str "tombstone"))
        "updated_at" (.str now)) =
      { node with metadata := sinsert (sinsert node.metadata "state"
          (.str "tombstone")) "updated_at" (.str now) } := rfl

/-- After a keyword-store remove, the caller's index holds no entry for the
document: its length entry is gone and every postings map omits it. -/
theorem kwRemove_removed (st : KwState) (docId : String) (un : Option String)
    (ui : UserIndex)
    (h : aget (kwRemove st docId un) (kwUserKey un) = some ui) :
    aget ui.docLength docId = none ∧
      ∀ tp ∈ ui.termDocTf, aget tp.2 docId = none := by
  rw [kwRemove] at h
  split at h
  · next idx hidx =>
      rw [aget_ainsert_self] at h
      obtain rfl : removeDoc idx docId = ui := Option.some.injEq _ _ ▸ h
      constructor
      · exact aget_aremove_self _ _
      · intro tp htp
        rw [removeDoc] at htp
        obtain ⟨tp0, -, htp0⟩ := List.mem_map.mp htp
        rw [← htp0]
        exact aget_aremove_self _ _
  · next hidx => rw [hidx] at h; cases h

/-- Single soft-forget step: under the claim hypotheses the call succeeds and
produces the tombstoned node, the vector deletion, and the keyword removal. -/
theorem forgetMemory_soft_step (graph : GraphState) (vec : VecState)
    (kw : Option KwState) (now : String) (req : ForgetMemoryRequest)
    (node : MemoryNode) (hsoft : req.soft = true)
    (hget : aget graph.nodes req.memory_id = some node)
    (howner : ownerFromMetadata node.metadata = req.mem_cube_id.getD req.user_id) :
    forgetMemory graph vec kw now req =
      (.ok req.memory_id,
        { graph with nodes := (ainsert graph.nodes req.memory_id
            { node with metadata := sinsert (sinsert node.metadata "state"
                (.str "tombstone")) "updated_at" (.str now) }) },
        vecDelete vec [req.memory_id],
        kw.map fun st => kwRemove st req.memory_id
          (some (req.mem_cube_id.getD req.user_id))) := by
  have hgn : getNode graph req.memory_id false =
      some (stripEmbedding node false) := by
    rw [getNode, hget]
    rfl
  have hup : updateNode graph req.memory_id
      (sinsert (sinsert [] "state" (.str "tombstone")) "updated_at" (.str now))
      (some (req.mem_cube_id.getD req.user_id)) =
      ({ graph with nodes := (ainsert graph.nodes req.memory_id
          { node with metadata := sinsert (sinsert node.metadata "state"
              (.str "tombstone")) "updated_at" (.str now) }) }, .ok ()) := by
    rw [updateNode, hget]
    simp only []
    rw [applyFields_tombstone]
    simp [ownerDenied, howner]
  rw [forgetMemory, hgn]
  simp only [stripEmbedding_metadata, howner, hsoft]
  rw [hup]
  simp

/-- Claim C10.  Soft forget is idempotent: for a memory owned by the caller,
the second soft forget on the already-tombstoned id also succeeds (the ok
result models the code-200 response), the node still exists with
metadata.state tombstone, and the vector store and the caller's keyword index
hold no entry for the id. -/
theorem forgetMemory_soft_idempotent (graph : GraphState) (vec : VecState)
    (kw : Option KwState) (now1 now2 : String) (req : ForgetMemoryRequest)
    (node : MemoryNode) (hsoft : req.soft = true)
    (hget : aget graph.nodes req.memory_id = some node)
    (howner : ownerFromMetadata node.metadata = req.mem_cube_id.getD req.user_id) :
    ∃ g1 v1 k1 g2 v2 k2,
      forgetMemory graph vec kw now1 req = (.ok req.memory_id, g1, v1, k1) ∧
      forgetMemory g1 v1 k1 now2 req = (.ok req.memory_id, g2, v2, k2) ∧
      (∃ node2, aget g2.nodes req.memory_id = some node2 ∧
        sget node2.metadata "state" = some (.str "tombstone")) ∧
      aget v2 req.memory_id = none ∧
      ∀ st, k2 = some st → ∀ ui,
        aget st (req.mem_cube_id.getD req.user_id) = some ui →
        aget ui.docLength req.memory_id = none ∧
        ∀ tp ∈ ui.termDocTf, aget tp.2 req.memory_id = none := by
  have h1 := forgetMemory_soft_step graph vec kw now1 req node hsoft hget howner
  have hget1 : aget ({ graph with nodes := (ainsert graph.nodes req.memory_id
      { node with metadata := sinsert (sinsert node.metadata "state"
          (.str "tombstone")) "updated_at" (.str now1) }) } : GraphState).nodes
      req.memory_id =
      some ({ node with metadata := sinsert (sinsert node.metadata "state"
          (.str "tombstone")) "updated_at" (.str now1) }) :=
    aget_ainsert_self _ _ _
  have howner1 : ownerFromMetadata (sinsert (sinsert node.metadata "state"
      (.str "tombstone")) "updated_at" (.str now1)) =
      req.mem_cube_id.getD req.user_id := by
    rw [ownerFromMetadata_sinsert_ne _ _ _ (by decide),
      ownerFromMetadata_sinsert_ne _ _ _ (by decide), howner]
  have h2 := forgetMemory_soft_step _ (vecDelete vec [req.memory_id])
    (kw.map fun st => kwRemove st req.memory_id
      (some (req.mem_cube_id.getD req.user_id))) now2 req _ hsoft hget1 howner1
  refine ⟨_, _, _, _, _, _, h1, h2, ⟨_, aget_ainsert_self _ _ _, ?_⟩, ?_, ?_⟩
  · rw [sget_sinsert_ne _ _ _ _ (by decide), sget_sinsert_self]
  · show aget (vecDelete (vecDelete vec [req.memory_id]) [req.memory_id])
      req.memory_id = none
    exact aget_aremove_self _ _
  · intro st hst ui hui
    obtain ⟨st1, -, hst1⟩ := Option.map_eq_some'.mp hst
    rw [← hst1] at hui
    exact kwRemove_removed st1 req.memory_id _ ui hui

/-- Concrete store for the C10 witness: one active node owned by u. -/
def c10Graph : GraphState :=
  addNodesBatch emptyGraph
    [⟨"m1", "text", [("scope", .str "LongTermMemory")], none⟩] (some "u")

/-- Node m1 as stored in c10Graph. -/
def c10Node : MemoryNode :=
  ⟨"m1", "text", [("scope", .str "LongTermMemory"), ("user_name", .str "u")], none⟩

/-- Forget request of the C10 witness. -/
def c10Req : ForgetMemoryRequest := ⟨"m1", "u", none, true⟩

/-- Witness for C10 at the concrete store, vector entry, and keyword index. -/
theorem forgetMemory_soft_idempotent_witness :
    (c10Req.soft = true ∧ aget c10Graph.nodes "m1" = some c10Node ∧
      ownerFromMetadata c10Node.metadata = c10Req.mem_cube_id.getD c10Req.user_id) ∧
    (∃ g1 v1 k1 g2 v2 k2,
      forgetMemory c10Graph (vecAdd [] [⟨"m1", [1], []⟩])
          (some (kwIndex [] "m1" ("text".data) (some "u"))) "t1" c10Req =
        (.ok c10Req.memory_id, g1, v1, k1) ∧
      forgetMemory g1 v1 k1 "t2" c10Req = (.ok c10Req.memory_id, g2, v2, k2) ∧
      (∃ node2, aget g2.nodes c10Req.memory_id = some node2 ∧
        sget node2.metadata "state" = some (.str "tombstone")) ∧
      aget v2 c10Req.memory_id = none ∧
      ∀ st, k2 = some st → ∀ ui,
        aget st (c10Req.mem_cube_id.getD c10Req.user_id) = some ui →
        aget ui.docLength c10Req.memory_id = none ∧
        ∀ tp ∈ ui.termDocTf, aget tp.2 c10Req.memory_id = none) :=
  ⟨⟨rfl, by decide, by decide⟩,
    forgetMemory_soft_idempotent c10Graph (vecAdd [] [⟨"m1", [1], []⟩])
      (some (kwIndex [] "m1" ("text".data) (some "u"))) "t1" "t2" c10Req
      c10Node rfl (by decide) (by decide)⟩

/-! ## InMemoryScheduler (crates/mem-scheduler/src/memory.rs, trait_.rs) -/

/-- Job lifecycle states.  Modelled from the spec: the Job and JobStatus
types are code of this repository missing from src/ (mem-scheduler and
mem-api only import them from mem_types). -/
inductive JobStatus : Type where
  | pending
  | running
  | done
  | failed
  deriving DecidableEq, Repr

/-- Modelled from the spec: Job is the record job_id, status, created_at,
updated_at, optional result_summary, user_id (the spec data model lists
user_id; the type itself is missing from src/). -/
structure Job : Type where
  job_id : String
  status : JobStatus
  created_at : String
  updated_at : String
  result_summary : Option String
  user_id : String
  deriving DecidableEq, Repr

/-- Mirror of InMemoryScheduler::get_status (memory.rs lines 121 to 125): a
pure lookup of the job id in the state map.  The Scheduler trait (trait_.rs)
declares get_status(user_id, job_id) and documents that a job not owned by
the given user yields None, and the API handler calls it with both
arguments; the implementation body reads only the job id and ignores the
user entirely. -/
def getStatusImpl (jobs : List (String × Job)) (user_id job_id : String) :
    Option Job :=
  let _ := user_id
  aget jobs job_id

/-- Modelled from the spec: get_status returns the current job only if the
submitting user matches, otherwise None (to be surfaced as 404). -/
def getStatusSpec (jobs : List (String × Job)) (user_id job_id : String) :
    Option Job :=
  match aget jobs job_id with
  | some j => if j.user_id = user_id then some j else none
  | none => none

/-- Job submitted by alice, used to exhibit the C3 divergence. -/
def c3Job : Job := ⟨"j1", .pending, "t0", "t0", none, "alice"⟩

/-- Claim C3 exhibit.  The implemented get_status returns alice's job to bob:
it never compares the caller to the submitting user, contradicting the
Scheduler trait contract and the spec (which require None, surfaced as 404,
for any other user). -/
theorem getStatus_cross_tenant_bug :
    getStatusImpl [("j1", c3Job)] "bob" "j1" = some c3Job ∧
    c3Job.user_id = "alice" ∧ ("alice" : String) ≠ "bob" ∧
    getStatusSpec [("j1", c3Job)] "bob" "j1" = none :=
  ⟨rfl, rfl, by decide, rfl⟩

/-! ## Rerank stage of hybrid_search (naive.rs lines 711 to 762) -/

/-- Rerank configuration (RerankConfig in entity.rs). -/
structure RerankConfig : Type where
  enabled : Bool
  model_url : Option String
  api_key : Option String
  rerank_top_k : Nat
  deriving DecidableEq, Repr

/-- Single reranker result (RerankHit in traits.rs). -/
structure RerankHit : Type where
  memory_id : String
  score : ℚ
  deriving DecidableEq, Repr

/-- Hybrid search hit, reduced to the fields the rerank stage reads and
writes (the full HybridSearchHit additionally carries the per-channel raw
and normalized scores and metadata, which the stage only copies). -/
structure HybridSearchHit : Type where
  memory_id : String
  memory_content : String
  fused_score : ℚ
  rerank_score : Option ℚ
  deriving DecidableEq, Repr

/-- Shortlist submitted to the reranker: the first min(rerank_top_k · 2,
hits.len()) of the fused-sorted hits. -/
def submittedCandidates (hits : List HybridSearchHit) (cfg : RerankConfig) :
    List HybridSearchHit :=
  hits.take (min (cfg.rerank_top_k * 2) hits.length)

/-- Rerank branch of hybrid_search over the fused-sorted hits.  rerankResult
models the outcome of the external reranker call on the submitted candidates
(which the source invokes with rerank_top_k as its own truncation argument).
The source collects the candidates into an id-keyed HashMap (later entries
overwrite earlier ones), modelled by getLast? of the id filter; hits carry
pairwise distinct ids in practice, making the choice immaterial. -/
def rerankStage (hits : List HybridSearchHit) (topK : Nat)
    (haveReranker : Bool) (rcfg : Option RerankConfig)
    (rerankResult : Except String (List RerankHit)) :
    List HybridSearchHit × Bool :=
  match haveReranker, rcfg with
  | true, some cfg =>
      if cfg.enabled && cfg.model_url.isSome && !hits.isEmpty then
        let candidates := submittedCandidates hits cfg
        match rerankResult with
        | .ok reranked =>
            if !reranked.isEmpty then
              let out := reranked.filterMap fun r =>
                ((candidates.filter fun h =>
                  decide (h.memory_id = r.memory_id)).getLast?).map
                  fun h => { h with rerank_score := some r.score }
              (out.take topK, true)
            else (hits.take topK, false)
        | .error _ => (hits.take topK, false)
      else (hits.take topK, false)
  | _, _ => (hits.take topK, false)

/-- Tail of hybrid_search: sort by fused score descending (stable sort_by
modelled by a stable insertion sort), then the rerank stage. -/
def hybridFinalize (hits : List HybridSearchHit) (topK : Nat)
    (haveReranker : Bool) (rcfg : Option RerankConfig)
    (rerankResult : Except String (List RerankHit)) :
    List HybridSearchHit × Bool :=
  rerankStage (hits.insertionSort fun a b => b.fused_score ≤ a.fused_score)
    topK haveReranker rcfg rerankResult

/-- Stated from the claim's words, for comparison with rerankStage: identical
except that on reranker success the reordered hits are truncated to
rerank_top_k rather than to the request's top_k. -/
def rerankStageClaimed (hits : List HybridSearchHit) (topK : Nat)
    (haveReranker : Bool) (rcfg : Option RerankConfig)
    (rerankResult : Except String (List RerankHit)) :
    List HybridSearchHit × Bool :=
  match haveReranker, rcfg with
  | true, some cfg =>
      if cfg.enabled && cfg.model_url.isSome && !hits.isEmpty then
        let candidates := submittedCandidates hits cfg
        match rerankResult with
        | .ok reranked =>
            if !reranked.isEmpty then
              let out := reranked.filterMap fun r =>
                ((candidates.filter fun h =>
                  decide (h.memory_id = r.memory_id)).getLast?).map
                  fun h => { h with rerank_score := some r.score }
              (out.take cfg.rerank_top_k, true)
            else (hits.take topK, false)
        | .error _ => (hits.take topK, false)
      else (hits.take topK, false)
  | _, _ => (hits.take topK, false)

/-- Four fused-sorted hits for the C5 counterexample. -/
def c5Hits : List HybridSearchHit :=
  [⟨"h1", "c1", 4, none⟩, ⟨"h2", "c2", 3, none⟩,
   ⟨"h3", "c3", 2, none⟩, ⟨"h4", "c4", 1, none⟩]

/-- Rerank configuration of the C5 counterexample: enabled, url set,
rerank_top_k = 3. -/
def c5Cfg : RerankConfig := ⟨true, some "http-reranker", none, 3⟩

/-- Reranker output of the C5 counterexample: three hits, reordered. -/
def c5Reranked : List RerankHit := [⟨"h3", 9⟩, ⟨"h1", 8⟩, ⟨"h2", 7⟩]

/-- Counterexample to claim C5 as stated: with top_k = 2 and
rerank_top_k = 3 and a successful reranker returning three hits, the code
truncates the reranked list to the request top_k (2 hits), not to
rerank_top_k (3 hits) as the claim requires. -/
theorem rerank_truncation_counterexample :
    (rerankStage c5Hits 2 true (some c5Cfg) (.ok c5Reranked)).1.length = 2 ∧
    (rerankStageClaimed c5Hits 2 true (some c5Cfg) (.ok c5Reranked)).1.length = 3 ∧
    rerankStage c5Hits 2 true (some c5Cfg) (.ok c5Reranked) ≠
      rerankStageClaimed c5Hits 2 true (some c5Cfg) (.ok c5Reranked) := by
  refine ⟨rfl, rfl, ?_⟩
  intro h
  have h1 : (rerankStage c5Hits 2 true (some c5Cfg) (.ok c5Reranked)).1.length =
      (rerankStageClaimed c5Hits 2 true (some c5Cfg) (.ok c5Reranked)).1.length := by
    rw [h]
  simp only [show (rerankStage c5Hits 2 true (some c5Cfg)
    (.ok c5Reranked)).1.length = 2 from rfl] at h1
  simp only [show (rerankStageClaimed c5Hits 2 true (some c5Cfg)
    (.ok c5Reranked)).1.length = 3 from rfl] at h1
  exact absurd h1 (by decide)

/-- Claim C5, amended.  When a reranker is configured, rerank_config is
present with enabled true and model_url set, and there is at least one hit:
the shortlist submitted to the reranker is the top min(2·rerank_top_k,
number of hits) of the descending fused order (its fused scores dominate
every unsubmitted hit); when the reranker succeeds with a non-empty list the
output is the reranker's returned order mapped back onto the shortlist with
rerank scores attached, truncated to the caller's top_k (not to rerank_top_k,
which is only what the reranker itself is asked for), and rerank_used is
true; when the reranker errors or returns an empty list the fused order
truncated to top_k is kept and rerank_used is false. -/
theorem hybridFinalize_rerank_spec (hits : List HybridSearchHit) (topK : Nat)
    (cfg : RerankConfig) (rerankResult : Except String (List RerankHit))
    (henabled : cfg.enabled = true) (hurl : cfg.model_url.isSome = true)
    (hne : hits ≠ []) :
    (submittedCandidates
        (hits.insertionSort fun a b => b.fused_score ≤ a.fused_score) cfg).length =
      min (cfg.rerank_top_k * 2) hits.length ∧
    (∀ x ∈ submittedCandidates
        (hits.insertionSort fun a b => b.fused_score ≤ a.fused_score) cfg,
      ∀ y ∈ (hits.insertionSort fun a b => b.fused_score ≤ a.fused_score).drop
        (min (cfg.rerank_top_k * 2) hits.length),
      y.fused_score ≤ x.fused_score) ∧
    (∀ l, rerankResult = .ok l → l ≠ [] →
      hybridFinalize hits topK true (some cfg) rerankResult =
        ((l.filterMap fun r =>
          (((submittedCandidates
            (hits.insertionSort fun a b => b.fused_score ≤ a.fused_score)
            cfg).filter fun h => decide (h.memory_id = r.memory_id)).getLast?).map
            fun h => { h with rerank_score := some r.score }).take topK, true)) ∧
    ((rerankResult = .ok [] ∨ ∃ e, rerankResult = .error e) →
      hybridFinalize hits topK true (some cfg) rerankResult =
        ((hits.insertionSort fun a b => b.fused_score ≤ a.fused_score).take topK,
          false)) := by
  haveI instTot : IsTotal HybridSearchHit
      (fun a b => b.fused_score ≤ a.fused_score) :=
    ⟨fun a b => le_total b.fused_score a.fused_score⟩
  haveI instTrans : IsTrans HybridSearchHit
      (fun a b => b.fused_score ≤ a.fused_score) :=
    ⟨fun _ _ _ h1 h2 => le_trans h2 h1⟩
  have hlen : (hits.insertionSort
      fun a b => b.fused_score ≤ a.fused_score).length = hits.length :=
    (List.perm_insertionSort _ _).length_eq
  have hsne : (hits.insertionSort
      fun a b => b.fused_score ≤ a.fused_score).isEmpty = false := by
    rw [Bool.eq_false_iff]
    intro hI
    have h0 := List.isEmpty_iff.mp hI
    rw [h0] at hlen
    exact hne (List.eq_nil_of_length_eq_zero hlen.symm)
  have hcand : submittedCandidates
      (hits.insertionSort fun a b => b.fused_score ≤ a.fused_score) cfg =
      (hits.insertionSort fun a b => b.fused_score ≤ a.fused_score).take
        (min (cfg.rerank_top_k * 2) hits.length) := by
    rw [submittedCandidates, hlen]
  refine ⟨?_, ?_, ?_, ?_⟩
  · rw [hcand, List.length_take, hlen]
    omega
  · intro x hx y hy
    have hsorted : List.Pairwise (fun a b => b.fused_score ≤ a.fused_score)
        (hits.insertionSort fun a b => b.fused_score ≤ a.fused_score) :=
      List.sorted_insertionSort _ _
    rw [← List.take_append_drop (min (cfg.rerank_top_k * 2) hits.length)
      (hits.insertionSort fun a b => b.fused_score ≤ a.fused_score)] at hsorted
    refine (List.pairwise_append.mp hsorted).2.2 x ?_ y hy
    rw [hcand] at hx
    exact hx
  · intro l hl hlne
    have hlneb : l.isEmpty = false := by
      rw [Bool.eq_false_iff]
      intro hI
      exact hlne (List.isEmpty_iff.mp hI)
    rw [hybridFinalize, rerankStage]
    simp only [henabled, hurl, hsne, Bool.not_false, Bool.and_self,
      Bool.true_and, if_true, hl, hlneb]
  · intro hcase
    rw [hybridFinalize, rerankStage]
    rcases hcase with hok | ⟨e, herr⟩
    · simp only [henabled, hurl, hsne, Bool.not_false, Bool.and_self,
        Bool.true_and, if_true, hok]
      simp
    · simp only [henabled, hurl, hsne, Bool.not_false, Bool.and_self,
        Bool.true_and, if_true, herr]

/-- Witness for the amended C5 at the concrete counterexample inputs. -/
theorem hybridFinalize_rerank_spec_witness :
    (c5Cfg.enabled = true ∧ c5Cfg.model_url.isSome = true ∧ c5Hits ≠ []) ∧
    ((submittedCandidates
        (c5Hits.insertionSort fun a b => b.fused_score ≤ a.fused_score)
        c5Cfg).length = min (c5Cfg.rerank_top_k * 2) c5Hits.length ∧
    (∀ x ∈ submittedCandidates
        (c5Hits.insertionSort fun a b => b.fused_score ≤ a.fused_score) c5Cfg,
      ∀ y ∈ (c5Hits.insertionSort fun a b => b.fused_score ≤ a.fused_score).drop
        (min (c5Cfg.rerank_top_k * 2) c5Hits.length),
      y.fused_score ≤ x.fused_score) ∧
    (∀ l, (Except.ok c5Reranked : Except String (List RerankHit)) = .ok l →
      l ≠ [] →
      hybridFinalize c5Hits 2 true (some c5Cfg) (.ok c5Reranked) =
        ((l.filterMap fun r =>
          (((submittedCandidates
            (c5Hits.insertionSort fun a b => b.fused_score ≤ a.fused_score)
            c5Cfg).filter fun h => decide (h.memory_id = r.memory_id)).getLast?).map
            fun h => { h with rerank_score := some r.score }).take 2, true)) ∧
    ((((Except.ok c5Reranked : Except String (List RerankHit)) = .ok [] ∨
        ∃ e, (Except.ok c5Reranked : Except String (List RerankHit)) = .error e)) →
      hybridFinalize c5Hits 2 true (some c5Cfg) (.ok c5Reranked) =
        ((c5Hits.insertionSort fun a b => b.fused_score ≤ a.fused_score).take 2,
          false))) :=
  ⟨⟨rfl, rfl, by decide⟩,
    hybridFinalize_rerank_spec c5Hits 2 c5Cfg (.ok c5Reranked) rfl rfl (by decide)⟩

/-! ## BM25 search of the keyword store (keyword_store.rs UserIndex::search) -/

theorem aget_aupdate_self {κ α : Type} [DecidableEq κ] (m : List (κ × α))
    (k : κ) (f : α → α) (d : α) :
    aget (aupdate m k f d) k = some (f (agetD m k d)) := by
  induction m with
  | nil => simp [aupdate, aget, agetD]
  | cons kv rest ih =>
      by_cases hk : kv.1 = k
      · simp [aupdate, hk, aget, agetD]
      · simp only [aupdate, if_neg hk, aget, agetD]
        simpa [agetD] using ih

theorem aget_aupdate_ne {κ α : Type} [DecidableEq κ] (m : List (κ × α))
    (k k2 : κ) (f : α → α) (d : α) (h : k ≠ k2) :
    aget (aupdate m k f d) k2 = aget m k2 := by
  induction m with
  | nil => simp [aupdate, aget, h]
  | cons kv rest ih =>
      by_cases hk : kv.1 = k
      · simp [aupdate, hk, aget, h]
      · simp only [aupdate, if_neg hk, aget]
        split <;> simp_all

theorem aupdate_keys {κ α : Type} [DecidableEq κ] (m : List (κ × α))
    (k : κ) (f : α → α) (d : α) :
    (aupdate m k f d).map Prod.fst =
      if k ∈ m.map Prod.fst then m.map Prod.fst else m.map Prod.fst ++ [k] := by
  induction m with
  | nil => simp [aupdate]
  | cons kv rest ih =>
      by_cases hk : kv.1 = k
      · simp [aupdate, hk]
      · have hk2 : k ≠ kv.1 := fun he => hk he.symm
        simp only [aupdate, if_neg hk, List.map_cons, ih, List.mem_cons]
        by_cases hmem : k ∈ rest.map Prod.fst
        · simp [hmem, hk2]
        · simp [hmem, hk2]

theorem aupdate_keys_nodup {κ α : Type} [DecidableEq κ] (m : List (κ × α))
    (k : κ) (f : α → α) (d : α) (h : (m.map Prod.fst).Nodup) :
    ((aupdate m k f d).map Prod.fst).Nodup := by
  rw [aupdate_keys]
  split
  · exact h
  · next hnot =>
      rw [List.nodup_append]
      refine ⟨h, List.nodup_singleton k, ?_⟩
      intro a ha hb
      rw [List.mem_singleton] at hb
      exact hnot (hb ▸ ha)

theorem aget_eq_none_of_not_mem_keys {κ α : Type} [DecidableEq κ]
    (m : List (κ × α)) (k : κ) (h : k ∉ m.map Prod.fst) : aget m k = none := by
  induction m with
  | nil => rfl
  | cons kv rest ih =>
      simp only [List.map_cons, List.mem_cons] at h
      push_neg at h
      have hne : kv.1 ≠ k := fun he => h.1 he.symm
      simp only [aget, if_neg hne]
      exact ih h.2

theorem countTerms_fold_aget :
    ∀ (terms : List (List Char)) (acc : List (List Char × Nat)) (t : List Char),
      aget (terms.foldl (fun acc t2 => aupdate acc t2 (· + 1) 0) acc) t =
        if t ∈ terms then some (agetD acc t 0 + terms.count t)
        else aget acc t := by
  intro terms
  induction terms with
  | nil => intro acc t; simp
  | cons a rest ih =>
      intro acc t
      rw [List.foldl_cons]
      rw [ih]
      by_cases ht : t = a
      · subst ht
        have hself : aget (aupdate acc t (· + 1) 0) t = some (agetD acc t 0 + 1) :=
          aget_aupdate_self acc t _ 0
        have hselfD : agetD (aupdate acc t (· + 1) 0) t 0 = agetD acc t 0 + 1 := by
          rw [agetD, hself]
          rfl
        by_cases hmem : t ∈ rest
        · rw [if_pos hmem, if_pos (List.mem_cons_self _ _), hselfD,
            List.count_cons_self]
          congr 1
          omega
        · rw [if_neg hmem, if_pos (List.mem_cons_self _ _), hself,
            List.count_cons_self, List.count_eq_zero_of_not_mem hmem]
      · have hne : a ≠ t := fun he => ht he.symm
        have h2 : aget (aupdate acc a (· + 1) 0) t = aget acc t :=
          aget_aupdate_ne acc a t _ 0 hne
        have h2D : agetD (aupdate acc a (· + 1) 0) t 0 = agetD acc t 0 := by
          rw [agetD, h2]
          rfl
        by_cases hmem : t ∈ rest
        · rw [if_pos hmem, if_pos (List.mem_cons_of_mem _ hmem), h2D,
            List.count_cons_of_ne ht]
        · rw [if_neg hmem, h2, if_neg (by simp [ht, hmem])]

theorem countTerms_aget (terms : List (List Char)) (t : List Char) :
    aget (countTerms terms) t =
      if t ∈ terms then some (terms.count t) else none := by
  rw [countTerms, countTerms_fold_aget]
  split
  · simp [agetD, aget]
  · rfl

theorem countTerms_keys_nodup (terms : List (List Char)) :
    ((countTerms terms).map Prod.fst).Nodup := by
  rw [countTerms]
  have : ∀ (ts : List (List Char)) (acc : List (List Char × Nat)),
      (acc.map Prod.fst).Nodup →
      ((ts.foldl (fun acc t2 => aupdate acc t2 (· + 1) 0) acc).map Prod.fst).Nodup := by
    intro ts
    induction ts with
    | nil => intro acc h; exact h
    | cons a rest ih =>
        intro acc h
        rw [List.foldl_cons]
        exact ih _ (aupdate_keys_nodup acc a _ 0 h)
  exact this terms [] (by simp)

theorem buildTf_aget (docId : String) :
    ∀ (cl : List (List Char × Nat))
      (acc : List (List Char × List (String × Nat))) (t : List Char),
      ((cl.map Prod.fst).Nodup) →
      aget (cl.foldl
        (fun acc tc => aupdate acc tc.1 (fun p => ainsert p docId tc.2) []) acc) t =
        match aget cl t with
        | some c => some (ainsert (agetD acc t []) docId c)
        | none => aget acc t := by
  intro cl
  induction cl with
  | nil => intro acc t _; rfl
  | cons kc rest ih =>
      intro acc t hnd
      obtain ⟨k1, c1⟩ := kc
      rw [List.map_cons, List.nodup_cons] at hnd
      obtain ⟨hk, hndrest⟩ := hnd
      rw [List.foldl_cons]
      rw [ih _ t hndrest]
      by_cases ht : k1 = t
      · subst ht
        have hrest : aget rest k1 = none := aget_eq_none_of_not_mem_keys rest k1 hk
        rw [hrest]
        have hhead : aget ((k1, c1) :: rest) k1 = some c1 := by simp [aget]
        rw [hhead]
        exact aget_aupdate_self acc k1 (fun p => ainsert p docId c1) []
      · have h2 := aget_aupdate_ne acc k1 t (fun p => ainsert p docId c1) [] ht
        have h2D : agetD (aupdate acc k1 (fun p => ainsert p docId c1) []) t [] =
            agetD acc t [] := by
          show (aget (aupdate acc k1 (fun p => ainsert p docId c1) []) t).getD [] =
            (aget acc t).getD []
          rw [h2]
        have hhead : aget ((k1, c1) :: rest) t = aget rest t := by
          simp [aget, ht]
        rw [hhead]
        cases hr : aget rest t with
        | none => exact h2
        | some c =>
            show some (ainsert (agetD (aupdate acc k1
              (fun p => ainsert p docId c1) []) t []) docId c) =
              some (ainsert (agetD acc t []) docId c)
            rw [h2D]

theorem indexDoc_empty_docLength (docId : String) (text : List Char) :
    (indexDoc emptyUserIndex docId text).docLength =
      [(docId, (tokenize text).length)] := rfl

theorem indexDoc_empty_termDocTf_aget (docId : String) (text : List Char)
    (t : List Char) :
    aget (indexDoc emptyUserIndex docId text).termDocTf t =
      if t ∈ tokenize text then some [(docId, (tokenize text).count t)]
      else none := by
  show aget ((countTerms (tokenize text)).foldl
    (fun acc tc => aupdate acc tc.1 (fun p => ainsert p docId tc.2) []) []) t = _
  rw [buildTf_aget docId (countTerms (tokenize text)) [] t
    (countTerms_keys_nodup _)]
  rw [countTerms_aget]
  by_cases hmem : t ∈ tokenize text
  · simp only [if_pos hmem]
    rfl
  · simp only [if_neg hmem]
    rfl

/-- Mirror of the inner posting loop of UserIndex::search in keyword_store.rs:
given the collection-wide values n and avg_len and the postings list of one
query term, fold the BM25 contribution idf * norm of this term into the
doc_scores accumulator (k1 = 1.2 and b = 0.75 inlined, as in the source). -/
noncomputable def bm25TermStep (n avgLen : ℝ) (docLength : List (String × Nat))
    (postings : List (String × Nat)) (acc : List (String × ℝ)) :
    List (String × ℝ) :=
  let df : ℝ := postings.length
  let idf : ℝ := Real.log ((n - df + 0.5) / (df + 0.5) + 1)
  postings.foldl (fun acc2 p =>
    let tf : ℝ := p.2
    let len : ℝ := (agetD docLength p.1 0 : ℕ)
    let norm := (tf * (1.2 + 1)) / (tf + 1.2 * (1 - 0.75 + 0.75 * len / avgLen))
    aupdate acc2 p.1 (fun s => s + idf * norm) 0) acc

/-- The doc_scores HashMap built by the term loop of UserIndex::search,
generalised over the starting accumulator (the source starts from the empty
map and folds every query term). -/
noncomputable def kwDocScoresFrom (idx : UserIndex) (n avgLen : ℝ)
    (queryTerms : List (List Char)) (acc : List (String × ℝ)) :
    List (String × ℝ) :=
  queryTerms.foldl (fun acc2 term =>
    match aget idx.termDocTf term with
    | none => acc2
    | some postings => bm25TermStep n avgLen idx.docLength postings acc2) acc

/-- Mirror of UserIndex::search in keyword_store.rs: tokenize the query,
return no hits for an empty query or an empty index, otherwise BM25-score
every document touched by a query term, keep scores >= min_score, sort by
descending score and truncate to top_k. Scores live in ℝ (f64 in source). -/
noncomputable def kwSearch (idx : UserIndex) (query : List Char) (topK : Nat)
    (minScore : ℝ) : List (String × ℝ) :=
  let queryTerms := tokenize query
  if queryTerms.isEmpty then []
  else
    let n : ℝ := idx.docLength.length
    if n = 0 then []
    else
      let avgLen : ℝ := ((idx.docLength.map Prod.snd).sum : ℕ) / n
      let docScores := kwDocScoresFrom idx n avgLen queryTerms []
      let hits := docScores.filter fun p => minScore ≤ p.2
      (hits.insertionSort fun a b => b.2 ≤ a.2).take topK

theorem bm25TermStep_single (n avgLen : ℝ) (docId : String) (L c : Nat)
    (hn : n = 1) (havg : avgLen = (L : ℝ)) (hL : 1 ≤ L) (hc : 1 ≤ c)
    (acc : List (String × ℝ)) :
    ∃ contrib : ℝ, 0 < contrib ∧
      bm25TermStep n avgLen [(docId, L)] [(docId, c)] acc =
        aupdate acc docId (fun s => s + contrib) 0 := by
  subst hn havg
  refine ⟨Real.log (((1:ℝ) - ([(docId, c)].length : ℝ) + 0.5) /
      (([(docId, c)].length : ℝ) + 0.5) + 1) *
      (((c:ℝ) * (1.2 + 1)) /
        ((c:ℝ) + 1.2 * (1 - 0.75 +
          0.75 * ((agetD [(docId, L)] docId 0 : ℕ) : ℝ) / (L:ℝ)))), ?_, rfl⟩
  have hlen1 : (([(docId, c)].length : ℕ) : ℝ) = 1 := by norm_num
  rw [hlen1]
  have hlenD : agetD [(docId, L)] docId 0 = L := by simp [agetD, aget]
  rw [hlenD]
  have hc1 : (1:ℝ) ≤ (c:ℝ) := by exact_mod_cast hc
  have hL1 : (1:ℝ) ≤ (L:ℝ) := by exact_mod_cast hL
  have hLR : (L:ℝ) ≠ 0 := by linarith
  have hdiv : 0.75 * (L:ℝ) / (L:ℝ) = 0.75 := by
    rw [mul_div_assoc, div_self hLR, mul_one]
  rw [hdiv]
  apply mul_pos
  · apply Real.log_pos
    norm_num
  · apply div_pos
    · nlinarith
    · nlinarith

theorem docScores_update_pos (docId : String) (contrib : ℝ) (hpos : 0 < contrib)
    (acc : List (String × ℝ))
    (hacc : acc = [] ∨ ∃ s, acc = [(docId, s)] ∧ 0 < s) :
    ∃ s2, aupdate acc docId (fun s => s + contrib) 0 = [(docId, s2)] ∧ 0 < s2 := by
  rcases hacc with h | ⟨s, hs, hspos⟩
  · subst h
    exact ⟨0 + contrib, rfl, by linarith⟩
  · subst hs
    refine ⟨s + contrib, ?_, by linarith⟩
    simp [aupdate]

theorem kwDocScoresFrom_single (docId : String) (text : List Char) (n avgLen : ℝ)
    (hn : n = 1) (havg : avgLen = ((tokenize text).length : ℝ)) :
    ∀ (qts : List (List Char)) (acc : List (String × ℝ)),
      (acc = [] ∨ ∃ s, acc = [(docId, s)] ∧ 0 < s) →
      (kwDocScoresFrom (indexDoc emptyUserIndex docId text) n avgLen qts acc = [] ∨
        ∃ s, kwDocScoresFrom (indexDoc emptyUserIndex docId text) n avgLen qts acc =
          [(docId, s)] ∧ 0 < s) ∧
      ((∀ t2 ∈ qts, t2 ∉ tokenize text) →
        kwDocScoresFrom (indexDoc emptyUserIndex docId text) n avgLen qts acc = acc) ∧
      (((∃ t2 ∈ qts, t2 ∈ tokenize text) ∨ (∃ s, acc = [(docId, s)] ∧ 0 < s)) →
        ∃ s, kwDocScoresFrom (indexDoc emptyUserIndex docId text) n avgLen qts acc =
          [(docId, s)] ∧ 0 < s) := by
  intro qts
  induction qts with
  | nil =>
      intro acc hacc
      refine ⟨hacc, fun _ => rfl, ?_⟩
      rintro (⟨t2, ht2, _⟩ | hs)
      · exact absurd ht2 (List.not_mem_nil t2)
      · exact hs
  | cons q rest ih =>
      intro acc hacc
      have hstep : kwDocScoresFrom (indexDoc emptyUserIndex docId text) n avgLen
          (q :: rest) acc =
          kwDocScoresFrom (indexDoc emptyUserIndex docId text) n avgLen rest
            (match aget (indexDoc emptyUserIndex docId text).termDocTf q with
             | none => acc
             | some postings =>
                 bm25TermStep n avgLen (indexDoc emptyUserIndex docId text).docLength
                   postings acc) := rfl
      by_cases hq : q ∈ tokenize text
      · have haget : aget (indexDoc emptyUserIndex docId text).termDocTf q =
            some [(docId, (tokenize text).count q)] := by
          rw [indexDoc_empty_termDocTf_aget, if_pos hq]
        have hc : 1 ≤ (tokenize text).count q := List.count_pos_iff.mpr hq
        have hL : 1 ≤ (tokenize text).length :=
          List.length_pos_of_mem hq
        obtain ⟨contrib, hcpos, hstepEq⟩ :=
          bm25TermStep_single n avgLen docId (tokenize text).length
            ((tokenize text).count q) hn havg hL hc acc
        obtain ⟨s1, hs1, hs1pos⟩ :=
          docScores_update_pos docId contrib hcpos acc hacc
        have hnext : (match aget (indexDoc emptyUserIndex docId text).termDocTf q with
             | none => acc
             | some postings =>
                 bm25TermStep n avgLen (indexDoc emptyUserIndex docId text).docLength
                   postings acc) = [(docId, s1)] := by
          rw [haget]
          show bm25TermStep n avgLen
            (indexDoc emptyUserIndex docId text).docLength
            [(docId, (tokenize text).count q)] acc = [(docId, s1)]
          rw [indexDoc_empty_docLength, hstepEq, hs1]
        rw [hstep, hnext]
        obtain ⟨A, B, C⟩ := ih [(docId, s1)] (Or.inr ⟨s1, rfl, hs1pos⟩)
        refine ⟨A, ?_, fun _ => C (Or.inr ⟨s1, rfl, hs1pos⟩)⟩
        intro hall
        exact absurd hq (hall q (List.mem_cons_self q rest))
      · have haget : aget (indexDoc emptyUserIndex docId text).termDocTf q = none := by
          rw [indexDoc_empty_termDocTf_aget, if_neg hq]
        have hnext : (match aget (indexDoc emptyUserIndex docId text).termDocTf q with
             | none => acc
             | some postings =>
                 bm25TermStep n avgLen (indexDoc emptyUserIndex docId text).docLength
                   postings acc) = acc := by
          rw [haget]
        rw [hstep, hnext]
        obtain ⟨A, B, C⟩ := ih acc hacc
        refine ⟨A, fun hall => B (fun t2 ht2 => hall t2 (List.mem_cons_of_mem q ht2)), ?_⟩
        rintro (⟨t2, ht2, ht2mem⟩ | hs)
        · rcases List.mem_cons.mp ht2 with he | ht2rest
          · exact absurd (he ▸ ht2mem) hq
          · exact C (Or.inl ⟨t2, ht2rest, ht2mem⟩)
        · exact C (Or.inr hs)

theorem kwSearch_single_eval (docId : String) (text query : List Char)
    (topK : Nat) (hqne : tokenize query ≠ []) :
    kwSearch (indexDoc emptyUserIndex docId text) query topK 0 =
      (((kwDocScoresFrom (indexDoc emptyUserIndex docId text) 1
          ((tokenize text).length : ℝ) (tokenize query) []).filter
          (fun p => (0:ℝ) ≤ p.2)).insertionSort (fun a b => b.2 ≤ a.2)).take topK := by
  have hE : ¬((tokenize query).isEmpty = true) := by
    simp [List.isEmpty_iff, hqne]
  have hN : ¬((((indexDoc emptyUserIndex docId text).docLength.length : ℕ) : ℝ) = 0) := by
    rw [indexDoc_empty_docLength]
    simp
  rw [kwSearch]
  simp only []
  rw [if_neg hE, if_neg hN]
  have e3 : ((((indexDoc emptyUserIndex docId text).docLength.map Prod.snd).sum : ℕ) : ℝ) /
      (((indexDoc emptyUserIndex docId text).docLength.length : ℕ) : ℝ) =
      ((tokenize text).length : ℝ) := by
    rw [indexDoc_empty_docLength]
    simp
  have e2 : ((((indexDoc emptyUserIndex docId text).docLength.length : ℕ) : ℝ)) = 1 := by
    rw [indexDoc_empty_docLength]
    simp
  rw [e3, e2]

/-- C9: for a tenant whose keyword index contains exactly one document
(docId, text), any query that shares at least one token with the document
after tokenization (lowercasing, splitting on non-alphanumeric code points —
the same tokenizer indexDoc uses) is answered by UserIndex::search with
exactly one hit, for that document, with score > 0, and any query sharing
no token is answered with zero hits (given top_k >= 1 and min_score 0). -/
theorem kwSearch_single_doc (docId : String) (text query : List Char)
    (topK : Nat) (htop : 1 ≤ topK) :
    ((∃ t ∈ tokenize query, t ∈ tokenize text) →
      ∃ s, 0 < s ∧
        kwSearch (indexDoc emptyUserIndex docId text) query topK 0 = [(docId, s)]) ∧
    ((∀ t ∈ tokenize query, t ∉ tokenize text) →
      kwSearch (indexDoc emptyUserIndex docId text) query topK 0 = []) := by
  constructor
  · rintro ⟨t0, ht0q, ht0d⟩
    have hqne : tokenize query ≠ [] := fun h => by
      rw [h] at ht0q
      exact absurd ht0q (List.not_mem_nil t0)
    rw [kwSearch_single_eval docId text query topK hqne]
    obtain ⟨A, B, C⟩ := kwDocScoresFrom_single docId text 1
      ((tokenize text).length : ℝ) rfl rfl (tokenize query) [] (Or.inl rfl)
    obtain ⟨s, hs, hspos⟩ := C (Or.inl ⟨t0, ht0q, ht0d⟩)
    refine ⟨s, hspos, ?_⟩
    rw [hs]
    have hfil : List.filter (fun p => decide ((0:ℝ) ≤ p.2)) [(docId, s)] =
        [(docId, s)] := by
      simp [List.filter, le_of_lt hspos]
    rw [hfil]
    have hsort : List.insertionSort (fun a b => b.2 ≤ a.2) [(docId, s)] =
        [(docId, s)] := rfl
    rw [hsort]
    exact List.take_of_length_le (by simpa using htop)
  · intro hdisj
    by_cases hq : tokenize query = []
    · rw [kwSearch]
      simp only []
      rw [if_pos (by simp [List.isEmpty_iff, hq])]
    · rw [kwSearch_single_eval docId text query topK hq]
      obtain ⟨A, B, C⟩ := kwDocScoresFrom_single docId text 1
        ((tokenize text).length : ℝ) rfl rfl (tokenize query) [] (Or.inl rfl)
      rw [B hdisj]
      simp

theorem kwSearch_single_doc_witness :
    (1 ≤ 3) ∧
    (((∃ t ∈ tokenize "hello world".toList, t ∈ tokenize "hello there".toList) →
      ∃ s, 0 < s ∧
        kwSearch (indexDoc emptyUserIndex "d1" "hello there".toList)
          "hello world".toList 3 0 = [("d1", s)]) ∧
     ((∀ t ∈ tokenize "hello world".toList, t ∉ tokenize "hello there".toList) →
      kwSearch (indexDoc emptyUserIndex "d1" "hello there".toList)
        "hello world".toList 3 0 = [])) :=
  ⟨by decide,
    kwSearch_single_doc "d1" "hello there".toList "hello world".toList 3 (by decide)⟩

end MemKernel
